import Mathlib

/-!
# Verification of the Ignition LSP project-script index and resolution engine

Shallow embedding of `lsp/ignition_lsp/project_scanner.py`,
`lsp/ignition_lsp/script_symbols.py`, `lsp/ignition_lsp/completion.py`
and `lsp/ignition_lsp/definition.py`.

Modelling conventions:
* Python strings are Lean `String`s.  The Python `str` primitives used by
  the code (`split`, `rsplit`, `startswith`, `lower`, `strip`, `rstrip`,
  slicing, `replace`, substring `in`) are re-implemented structurally over
  `List Char` (the `py*` helpers below) so that every definition evaluates
  inside the kernel.
* Python `set`s of strings are Lean `List String` queried with `contains`
  (membership is all the code uses of them).
* The filesystem is abstracted: a project directory is a record listing the
  files `os.walk` would enumerate; `json.loads` / `ast.parse` /
  `ast.unparse` (Python stdlib collaborators) are oracle parameters or
  pre-parsed fields, never re-implemented.
* Python object identity (relevant only to the symbol cache) is modelled by
  an allocation counter: each fresh extraction carries a fresh `objId`.
-/

namespace IgnitionLsp

/-! ## Python string primitives -/

/-- Does the character list `s` start with `pat`? -/
def listStartsWith : List Char → List Char → Bool
  | _, [] => true
  | [], _ :: _ => false
  | c :: cs, p :: ps => c == p && listStartsWith cs ps

/-- Does `s` contain `pat` as a contiguous sublist? -/
def listContains : List Char → List Char → Bool
  | s, pat =>
    listStartsWith s pat ||
      (match s with
       | [] => false
       | _ :: rest => listContains rest pat)

/-- Python `pat in s` (substring test).  `"" in s` is always true. -/
def pyContains (s pat : String) : Bool :=
  listContains s.data pat.data

/-- Python `s.startswith(pat)`. -/
def pyStartsWith (s pat : String) : Bool :=
  listStartsWith s.data pat.data

/-- Python `s.endswith(pat)`. -/
def pyEndsWith (s pat : String) : Bool :=
  listStartsWith s.data.reverse pat.data.reverse

/-- Split a character list on one separator character.
Mirrors Python `str.split(sep)`: the empty string yields `[""]`. -/
def splitOnCharList (sep : Char) : List Char → List (List Char)
  | [] => [[]]
  | x :: xs =>
    let r := splitOnCharList sep xs
    if x == sep then [] :: r
    else
      match r with
      | [] => [[x]]
      | h :: t => (x :: h) :: t

/-- Python `s.split(sep)` for a one-character separator (the only kind the
code uses: `"."`, `"-"`, and `splitlines` on `"\n"`). -/
def pySplit (s : String) (sep : Char) : List String :=
  (splitOnCharList sep s.data).map String.mk

/-- Python `s.lower()` (ASCII case folding, which is all the code needs). -/
def pyLower (s : String) : String :=
  String.mk (s.data.map Char.toLower)

/-- Python whitespace as stripped by `str.strip()`. -/
def isPySpace (c : Char) : Bool :=
  c == ' ' || c == '\t' || c == '\n' || c == '\r' ||
  c == Char.ofNat 11 || c == Char.ofNat 12

/-- Python `s.strip()`. -/
def pyStrip (s : String) : String :=
  String.mk (((s.data.dropWhile isPySpace).reverse.dropWhile isPySpace).reverse)

/-- Python `s[:n]` (slice of the first `n` code points). -/
def pyTake (s : String) (n : Nat) : String :=
  String.mk (s.data.take n)

/-- Python `len(s)` (number of code points). -/
def pyLen (s : String) : Nat :=
  s.data.length

/-- Python `s.replace("\n", "\\n")` (the only `replace` the code performs). -/
def replaceNewlines (s : String) : String :=
  String.mk (go s.data)
where
  go : List Char → List Char
    | [] => []
    | c :: cs => if c == '\n' then '\\' :: 'n' :: go cs else c :: go cs

/-- Python `s.rstrip(".")`: drop every trailing `'.'`. -/
def rstripDots (s : String) : String :=
  String.mk ((s.data.reverse.dropWhile (· == '.')).reverse)

/-- Python `s.rsplit(".", 1)` when `s` contains a dot:
`some (before, after)` split at the last dot, else `none` (the callers all
branch on whether a dot is present). -/
def rsplit1 (s : String) : Option (String × String) :=
  let parts := pySplit s '.'
  if parts.length ≥ 2 then
    some (String.intercalate "." parts.dropLast, parts.getLastD "")
  else
    none

/-! ## Data model (`project_scanner.py`) -/

/-- `ScriptLocation` dataclass: one script occurrence in the project. -/
structure ScriptLocation where
  file_path : String
  script_key : String
  line_number : Nat
  module_path : String
  resource_type : String
  context_name : String := ""
deriving Repr, DecidableEq

/-- `ProjectIndex` dataclass (the `last_updated` datetime is modelled as a
`Bool`: whether the timestamp was stamped). -/
structure ProjectIndex where
  root_path : String
  scripts : List ScriptLocation := []
  parent_roots : List String := []
  last_updated : Bool := false
deriving Repr, DecidableEq

/-- `ProjectIndex.find_by_module_path`: first location with this exact path. -/
def findByModulePath (scripts : List ScriptLocation) (m : String) :
    Option ScriptLocation :=
  scripts.find? (fun loc => loc.module_path == m)

/-- `ProjectIndex.search_module_paths`: all locations whose `module_path`
starts with the given string (plain string prefix). -/
def searchModulePaths (scripts : List ScriptLocation) (pfx : String) :
    List ScriptLocation :=
  scripts.filter (fun s => pyStartsWith s.module_path pfx)

/-! ## Module-path computation (`ProjectScanner._compute_module_path`) -/

/-- The hyphen-expansion loop of `_compute_module_path`: each directory
segment containing `-` is replaced by its `split("-")` pieces. -/
def expandHyphens (parts : List String) : List String :=
  parts.flatMap (fun part =>
    if pyContains part "-" then pySplit part '-' else [part])

/-- `ProjectScanner._compute_module_path`, over the file's directory path
relative to the scan root (`rel.parent.parts`) and the file's `stem`.
The scanner only calls it on files below `base_dir`, so the
`relative_to` branch always succeeds and is pre-applied here. -/
def computeModulePath (relDirParts : List String) (stem : String) : String :=
  let expanded := expandHyphens relDirParts
  if expanded = [] ∨ expanded = ["."] then stem
  else String.intercalate "." expanded

/-! ## Embedded-script line search (`ProjectScanner._find_key_line`) -/

/-- 1-based index of the first line satisfying `p`, if any. -/
def findFirstLine (lines : List String) (p : String → Bool) : Option Nat :=
  match lines.findIdx? p with
  | some i => some (i + 1)
  | none => none

/-- `ProjectScanner._find_key_line`: locate `"key"` together with the start
of the value, fall back to the key alone, default to line 1.
(`str.splitlines` is modelled by splitting on `'\n'`; the possible extra
empty final chunk can never contain the non-empty search key.) -/
def findKeyLine (rawText key valuePrefix : String) : Nat :=
  let searchKey := "\"" ++ key ++ "\""
  let valueStart := replaceNewlines (pyTake valuePrefix 40)
  let lines := pySplit rawText '\n'
  match findFirstLine lines
      (fun l => pyContains l searchKey && pyContains l (pyTake valueStart 20)) with
  | some i => i
  | none =>
    match findFirstLine lines (fun l => pyContains l searchKey) with
    | some i => i
    | none => 1

/-! ## JSON resource documents (`ProjectScanner._walk_json`) -/

/-- JSON keys that contain embedded scripts (`SCRIPT_KEYS`). -/
def SCRIPT_KEYS : List String :=
  ["script", "code", "eventScript", "transform",
   "onActionPerformed", "onChange", "onStartup", "onShutdown"]

/-- A parsed JSON-like document (result of `json.loads`). -/
inductive Json where
  | obj : List (String × Json) → Json
  | arr : List Json → Json
  | str : String → Json
  | num : Int → Json
  | bool : Bool → Json
  | null : Json
deriving Repr

/-- The context-name computation at the top of `_walk_json`: a string
`meta.name` when `meta` is an object, else a string `name` field, else `""`.
(A non-string `meta.name` is flattened to `""` here; it can only influence
the display-only `context_name`.) -/
def jsonName (fields : List (String × Json)) : String :=
  match fields.find? (fun kv => kv.1 == "meta") with
  | some (_, Json.obj metaFields) =>
    match metaFields.find? (fun kv => kv.1 == "name") with
    | some (_, Json.str s) => s
    | _ => ""
  | _ =>
    match fields.find? (fun kv => kv.1 == "name") with
    | some (_, Json.str s) => s
    | _ => ""

mutual

/-- `ProjectScanner._walk_json`: recursively walk a parsed JSON value,
emitting `(script_key, line_number, context_name)` triples. -/
def walkJson (raw : String) (node : Json) (ctx : String) :
    List (String × Nat × String) :=
  match node with
  | Json.obj fields =>
    let name := jsonName fields
    let cur := if name ≠ "" then name else ctx
    walkFields raw fields cur
  | Json.arr items => walkItems raw items ctx
  | _ => []

/-- The `for key, value in node.items()` loop body of `_walk_json`. -/
def walkFields (raw : String) (fields : List (String × Json)) (cur : String) :
    List (String × Nat × String) :=
  match fields with
  | [] => []
  | (k, v) :: rest =>
    (match v with
     | Json.str s =>
       if SCRIPT_KEYS.contains k && pyStrip s ≠ "" then
         [(k, findKeyLine raw k s, cur)]
       else []
     | Json.obj inner =>
       if SCRIPT_KEYS.contains k then
         match inner.find? (fun kv => kv.1 == "script") with
         | some (_, Json.str innerS) =>
           if pyStrip innerS ≠ "" then
             [(k, findKeyLine raw "script" innerS, cur)]
           else []
         | _ => []
       else walkJson raw (Json.obj inner) cur
     | v' => walkJson raw v' cur)
    ++ walkFields raw rest cur

/-- The `isinstance(node, list)` branch of `_walk_json`. -/
def walkItems (raw : String) (items : List Json) (ctx : String) :
    List (String × Nat × String) :=
  match items with
  | [] => []
  | item :: rest => walkJson raw item ctx ++ walkItems raw rest ctx

end

/-! ## Project directories as the scanner sees them

The filesystem is abstracted to the file lists `os.walk` would produce.
Each file record carries the data the scanner reads from it; pre-parsed
fields stand for the `json.loads` stdlib collaborator. -/

/-- A `.py` file under `ignition/script-python`.  `content` is carried only
to express that the scanner never reads it. -/
structure PyFile where
  relDirParts : List String
  stem : String
  content : String := ""
deriving Repr, DecidableEq

/-- A JSON document the scanner may open.  `raw = none` models an
`OSError`/`UnicodeDecodeError` on read; `parsed = none` models
`json.JSONDecodeError`. -/
structure JsonFile where
  relDirParts : List String
  stem : String
  size : Nat := 0
  raw : Option String := none
  parsed : Option Json := none
deriving Repr

/-- Contents of a project's `project.json` (the fields the scanner reads). -/
structure ProjData where
  title : Option String := none
  parent : Option String := none
deriving Repr, DecidableEq

/-- One project directory.  `hasProjectJson` is `project.json.is_file()`;
`projectData = none` with `hasProjectJson = true` models an unparsable
`project.json`.  The file lists are given in `os.walk` order. -/
structure Project where
  hasProjectJson : Bool := true
  projectData : Option ProjData := none
  pyFiles : List PyFile := []
  scriptJsonFiles : List JsonFile := []
  resourceJsonFiles : List (String × JsonFile) := []
  rootJsonFiles : List JsonFile := []
deriving Repr

/-- All sibling project directories, keyed by directory name, listed in
sorted order (models `sorted(siblings_dir.iterdir())`). -/
def Univ := List (String × Project)

/-- Join a root and relative parts into the `file_path` string. -/
def pathString (root : String) (relDirParts : List String) (filename : String) :
    String :=
  String.intercalate "/" (root :: relDirParts) ++ "/" ++ filename

/-- The size ceiling of `ProjectScanner._scan_json_file`. -/
def MAX_JSON_SIZE : Nat := 1000000

/-- `ProjectScanner._scan_json_file` over one document: size ceiling,
read, parse, walk. -/
def scanJsonFile (root : String) (f : JsonFile) (resourceType modulePath : String) :
    List ScriptLocation :=
  if f.size > MAX_JSON_SIZE then []
  else
    match f.raw with
    | none => []
    | some text =>
      match f.parsed with
      | none => []
      | some data =>
        (walkJson text data "").map (fun e =>
          { file_path := pathString root f.relDirParts (f.stem ++ ".json")
            script_key := e.1
            line_number := e.2.1
            module_path := modulePath
            resource_type := resourceType
            context_name := e.2.2 })

/-- The `ScriptLocation` built for one standalone `.py` file in
`ProjectScanner._scan_script_python_dir`. -/
def pyFileLoc (root : String) (f : PyFile) : ScriptLocation :=
  { file_path := pathString root f.relDirParts (f.stem ++ ".py")
    script_key := "__file__"
    line_number := 1
    module_path := computeModulePath f.relDirParts f.stem
    resource_type := "script-python"
    context_name := "" }

/-- `ProjectScanner._scan_project_dir`: this project's own locations
(standalone modules, script-python JSON documents, other resource
documents, top-level JSON documents). -/
def scanProjectDir (root : String) (p : Project) : List ScriptLocation :=
  p.pyFiles.map (pyFileLoc root)
  ++ p.scriptJsonFiles.flatMap (fun f =>
       scanJsonFile root f "script-python" (computeModulePath f.relDirParts f.stem))
  ++ p.resourceJsonFiles.flatMap (fun rf =>
       scanJsonFile root rf.2 rf.1 (computeModulePath rf.2.relDirParts rf.2.stem))
  ++ p.rootJsonFiles.flatMap (fun f => scanJsonFile root f "unknown" "")

/-! ## Parent-project chain (`_resolve_parent_path`, `_collect_parent_scripts`) -/

/-- Look a project up by directory name. -/
def lookupProj (univ : Univ) (root : String) : Option Project :=
  (univ.find? (fun kv => kv.1 == root)).map (·.2)

/-- `ProjectScanner._read_project_json`: `none` when `project.json` is
missing or unparsable. -/
def readProjectJson (univ : Univ) (root : String) : Option ProjData :=
  match lookupProj univ root with
  | none => none
  | some p => if p.hasProjectJson then p.projectData else none

/-- `ProjectScanner._resolve_parent_path`: first sibling (in sorted order,
skipping the project itself) whose `project.json` declares a matching
`title`; falling back to the sibling directory named `parentName`. -/
def resolveParentPath (univ : Univ) (root parentName : String) : Option String :=
  match univ.find? (fun kv =>
      kv.1 ≠ root && kv.2.hasProjectJson &&
      (match kv.2.projectData with
       | some d => d.title == some parentName
       | none => false)) with
  | some kv => some kv.1
  | none =>
    if (univ.any (fun kv => kv.1 == parentName)) && parentName ≠ root then
      some parentName
    else none

/-- `ProjectScanner._collect_parent_scripts`: recursively collect
`(parent_root, parent_scripts)` pairs, deepest ancestor first, breaking
cycles with the `visited` set (modelled as a list queried by `contains`). -/
def collectParentScripts (univ : Univ) (root : String) (visited : List String) :
    List (String × List ScriptLocation) :=
  match readProjectJson univ root with
  | none => []
  | some pd =>
    match pd.parent with
    | none => []
    | some parentName =>
      if parentName = "" then []
      else
        match hres : resolveParentPath univ root parentName with
        | none => []
        | some parentStr =>
          if hvis : visited.contains parentStr then []
          else
            let visited' := parentStr :: visited
            let parentScripts :=
              match lookupProj univ parentStr with
              | some pp =>
                if pp.hasProjectJson then scanProjectDir parentStr pp else []
              | none => []
            collectParentScripts univ parentStr visited'
              ++ [(parentStr, parentScripts)]
termination_by ((univ.map Prod.fst).toFinset \ visited.toFinset).card
decreasing_by
  have hmem : parentStr ∈ (univ.map Prod.fst).toFinset := by
    rw [List.mem_toFinset]
    unfold resolveParentPath at hres
    split at hres
    · next kv hfind =>
      cases hres
      exact List.mem_map_of_mem Prod.fst (List.mem_of_find?_eq_some hfind)
    · split at hres
      · next hcond =>
        cases hres
        rw [Bool.and_eq_true] at hcond
        rcases List.any_eq_true.mp hcond.1 with ⟨kv, hkvmem, hkv⟩
        rcases kv with ⟨k, p⟩
        simp only [beq_iff_eq] at hkv
        subst hkv
        exact List.mem_map_of_mem Prod.fst hkvmem
      · cases hres
  have hnv : parentStr ∉ visited.toFinset := by
    simp only [List.mem_toFinset]
    simpa using hvis
  apply Finset.card_lt_card
  constructor
  · intro x hx
    rcases Finset.mem_sdiff.mp hx with ⟨hx1, hx2⟩
    refine Finset.mem_sdiff.mpr ⟨hx1, fun hx3 => hx2 ?_⟩
    simp only [List.toFinset_cons, Finset.mem_insert]
    exact Or.inr hx3
  · intro hsub
    have : parentStr ∈ (univ.map Prod.fst).toFinset \ (parentStr :: visited).toFinset :=
      hsub (Finset.mem_sdiff.mpr ⟨hmem, hnv⟩)
    rcases Finset.mem_sdiff.mp this with ⟨_, hc⟩
    exact hc (by simp)

/-! ## Scan with ancestor merge (`ProjectScanner.scan`) -/

/-- State threaded through the merge loop in `scan`:
`(index.scripts, index.parent_roots, child_module_paths)`. -/
abbrev MergeAcc := List ScriptLocation × List String × List String

/-- The inner `for script in parent_scripts` loop of `scan`: append a parent
script unless its `module_path` is already present. -/
def mergeOne (acc : MergeAcc) (s : ScriptLocation) : MergeAcc :=
  if acc.2.2.contains s.module_path then acc
  else (acc.1 ++ [s], acc.2.1, acc.2.2 ++ [s.module_path])

/-- The outer `for parent_root, parent_scripts in parent_chain` loop. -/
def mergeEntry (acc : MergeAcc) (entry : String × List ScriptLocation) : MergeAcc :=
  entry.2.foldl mergeOne (acc.1, acc.2.1 ++ [entry.1], acc.2.2)

/-- The ancestor merge in `ProjectScanner.scan` (steps after
`_collect_parent_scripts`): returns the merged scripts and the
accumulated `parent_roots`. -/
def mergeParents (childScripts : List ScriptLocation)
    (chain : List (String × List ScriptLocation)) :
    List ScriptLocation × List String :=
  let final := chain.foldl mergeEntry
    (childScripts, [], childScripts.map (·.module_path))
  (final.1, final.2.1)

/-- `ProjectScanner.scan`: empty unstamped index when `project.json` is
absent, otherwise the project's own locations with the ancestor chain
merged in. -/
def scanProject (univ : Univ) (root : String) : ProjectIndex :=
  match lookupProj univ root with
  | none => { root_path := root }
  | some proj =>
    if proj.hasProjectJson then
      let childScripts := scanProjectDir root proj
      let chain := collectParentScripts univ root []
      let merged := mergeParents childScripts chain
      { root_path := root
        scripts := merged.1
        parent_roots := merged.2
        last_updated := true }
    else { root_path := root }

/-! ## Symbol extraction (`script_symbols.py`)

The Python `ast` module is a stdlib collaborator: AST nodes are modelled
with the fields the extractor reads, where `ast.unparse` results
(`_node_to_str`) and `ast.get_docstring` results are carried as pre-rendered
strings on the node. -/

/-- `ScriptFunction` dataclass. -/
structure ScriptFunction where
  name : String
  line_number : Nat
  signature : String
  params : List String
  docstring : Option String := none
  returns : Option String := none
  is_method : Bool := false
  decorators : List String := []
deriving Repr, DecidableEq

/-- `ScriptClass` dataclass. -/
structure ScriptClass where
  name : String
  line_number : Nat
  docstring : Option String := none
  bases : List String := []
  methods : List ScriptFunction := []
  class_variables : List String := []
deriving Repr, DecidableEq

/-- `ScriptVariable` dataclass. -/
structure ScriptVariable where
  name : String
  line_number : Nat
  type_hint : Option String := none
  value_repr : Option String := none
deriving Repr, DecidableEq

/-- `ModuleSymbols` dataclass.  `vars` is the `variables` field (a reserved
word in Lean); `file_mtime` is `_file_mtime` (modelled as `Int`); `objId`
models Python object identity for the cache theorems (each fresh extraction
is allocated a fresh id). -/
structure ModuleSymbols where
  file_path : String
  module_path : String
  functions : List ScriptFunction := []
  classes : List ScriptClass := []
  vars : List ScriptVariable := []
  parse_error : Option String := none
  file_mtime : Int := 0
  objId : Nat := 0
deriving Repr, DecidableEq

/-- An assignment target: a plain name (`ast.Name`) or anything else. -/
inductive PyTarget where
  | name (id : String)
  | other
deriving Repr, DecidableEq

/-- A top-level (or class-body) Python statement, carrying exactly the data
`extract_symbols` reads.  `ast.unparse` renderings (`…R` fields) and
`ast.get_docstring` results (`doc`) come pre-rendered from the stdlib.
A rendering of `none` on `assign.valueR` / the inner option of
`annAssign.valueR` models `ast.unparse` raising. -/
inductive PyStmt where
  | functionDef (name : String) (argNames : List String) (returnsR : Option String)
      (decoratorsR : List String) (doc : Option String) (lineno : Nat)
  | classDef (name : String) (basesR : List String) (doc : Option String)
      (body : List PyStmt) (lineno : Nat)
  | assign (targets : List PyTarget) (valueR : Option String) (lineno : Nat)
  | annAssign (target : PyTarget) (annR : Option String)
      (valueR : Option (Option String)) (lineno : Nat)
  | other

/-- The `value_repr` truncation: cap at 60 characters, `[:57] + "..."`. -/
def truncateValueRepr (s : String) : String :=
  if pyLen s > 60 then pyTake s 57 ++ "..." else s

/-- `_extract_function`: parameter names (dropping a leading `self`/`cls`),
signature rendering, method marking. -/
def extractFunction (name : String) (argNames : List String)
    (returnsR : Option String) (decoratorsR : List String)
    (doc : Option String) (lineno : Nat) : ScriptFunction :=
  let allParams := argNames
  let isMethod := allParams.length > 0 &&
    (allParams.headD "" == "self" || allParams.headD "" == "cls")
  let params := if isMethod then allParams.tail else allParams
  let sig := "def " ++ name ++ "(" ++ String.intercalate ", " allParams ++ ")"
  let sig :=
    match returnsR with
    | some r => sig ++ " -> " ++ r
    | none => sig
  { name := name
    line_number := lineno
    signature := sig
    params := params
    docstring := doc
    returns := returnsR
    is_method := isMethod
    decorators := decoratorsR }

/-- The body loop of `_extract_class`: methods (forced `is_method = True`)
and class-level variables (simple-name targets of direct assignments). -/
def extractClassBody (body : List PyStmt) :
    List ScriptFunction × List String :=
  body.foldl (fun acc item =>
    match item with
    | PyStmt.functionDef n args retR decs doc ln =>
      (acc.1 ++ [{ extractFunction n args retR decs doc ln with is_method := true }],
       acc.2)
    | PyStmt.assign targets _ _ =>
      (acc.1,
       acc.2 ++ targets.filterMap (fun t =>
         match t with
         | PyTarget.name id => some id
         | PyTarget.other => none))
    | _ => acc) ([], [])

/-- `_extract_class`. -/
def extractClass (name : String) (basesR : List String) (doc : Option String)
    (body : List PyStmt) (lineno : Nat) : ScriptClass :=
  let mv := extractClassBody body
  { name := name
    line_number := lineno
    docstring := doc
    bases := basesR
    methods := mv.1
    class_variables := mv.2 }

/-- One step of the top-level `for node in ast.iter_child_nodes(tree)` loop
of `extract_symbols`. -/
def extractTopLevel (acc : ModuleSymbols) (stmt : PyStmt) : ModuleSymbols :=
  match stmt with
  | PyStmt.functionDef n args retR decs doc ln =>
    { acc with functions := acc.functions ++ [extractFunction n args retR decs doc ln] }
  | PyStmt.classDef n bases doc body ln =>
    { acc with classes := acc.classes ++ [extractClass n bases doc body ln] }
  | PyStmt.assign targets valueR ln =>
    { acc with vars := acc.vars ++ targets.filterMap (fun t =>
        match t with
        | PyTarget.name id =>
          some { name := id
                 line_number := ln
                 value_repr := valueR.map truncateValueRepr }
        | PyTarget.other => none) }
  | PyStmt.annAssign (PyTarget.name id) annR valueR ln =>
    { acc with vars := acc.vars ++
        [{ name := id
           line_number := ln
           type_hint := annR
           value_repr := (valueR.getD none).map truncateValueRepr }] }
  | _ => acc

/-- `extract_symbols`, parameterised by the stdlib/filesystem oracles:
`mtimeRes` is `os.path.getmtime` (`none` = `OSError`), `contentRes` is the
file read (`Except.error e` = `OSError`/`UnicodeDecodeError` with message
`str(e)`), `pre` is the `_preprocess_py2` textual rewrite pass, and `parse`
is `ast.parse` returning the top-level statements or a `SyntaxError`
message. -/
def extractSymbolsModel (mtimeRes : Option Int) (contentRes : Except String String)
    (pre : String → String) (parse : String → Except String (List PyStmt))
    (filePath modulePath : String) : ModuleSymbols :=
  match mtimeRes with
  | none =>
    { file_path := filePath
      module_path := modulePath
      parse_error := some ("File not found: " ++ filePath) }
  | some m =>
    match contentRes with
    | Except.error e =>
      { file_path := filePath
        module_path := modulePath
        parse_error := some e
        file_mtime := m }
    | Except.ok source =>
      match parse (pre source) with
      | Except.error e =>
        { file_path := filePath
          module_path := modulePath
          parse_error := some e
          file_mtime := m }
      | Except.ok stmts =>
        stmts.foldl extractTopLevel
          { file_path := filePath
            module_path := modulePath
            file_mtime := m }

/-! ## Symbol cache (`SymbolCache`) -/

/-- The cache's view of the filesystem: for each path, its current
modification time and contents (`none` = `os.path.getmtime` raises). -/
def FileSys := String → Option (Int × String)

/-- `extract_symbols` as invoked through the cache: the oracles are derived
from the filesystem snapshot, and the result is stamped with a fresh
allocation id standing for Python object identity. -/
def extractFromFS (fs : FileSys) (pre : String → String)
    (parse : String → Except String (List PyStmt))
    (path modulePath : String) (id : Nat) : ModuleSymbols :=
  { extractSymbolsModel ((fs path).map Prod.fst)
      (match fs path with
       | some pc => Except.ok pc.2
       | none => Except.error "")
      pre parse path modulePath with objId := id }

/-- `SymbolCache` state: the `_cache` dict plus the allocation counter. -/
structure CacheState where
  cache : List (String × ModuleSymbols) := []
  nextId : Nat := 0
deriving Repr, DecidableEq

/-- Python dict assignment `self._cache[file_path] = symbols`. -/
def setEntry (c : List (String × ModuleSymbols)) (k : String) (v : ModuleSymbols) :
    List (String × ModuleSymbols) :=
  if c.any (fun kv => kv.1 == k) then
    c.map (fun kv => if kv.1 == k then (k, v) else kv)
  else c ++ [(k, v)]

/-- `SymbolCache.get`: return the cached symbols when the file's mtime is
unchanged, else re-extract and store; bypass the cache entirely when the
mtime cannot be read. -/
def cacheGet (fs : FileSys) (pre : String → String)
    (parse : String → Except String (List PyStmt))
    (st : CacheState) (path modulePath : String) : ModuleSymbols × CacheState :=
  match fs path with
  | none =>
    (extractFromFS fs pre parse path modulePath st.nextId,
     { st with nextId := st.nextId + 1 })
  | some pc =>
    match (st.cache.find? (fun kv => kv.1 == path)).map (·.2) with
    | some cached =>
      if cached.file_mtime == pc.1 then (cached, st)
      else
        let fresh := extractFromFS fs pre parse path modulePath st.nextId
        (fresh, { cache := setEntry st.cache path fresh, nextId := st.nextId + 1 })
    | none =>
      let fresh := extractFromFS fs pre parse path modulePath st.nextId
      (fresh, { cache := setEntry st.cache path fresh, nextId := st.nextId + 1 })

/-- `SymbolCache.invalidate`. -/
def cacheInvalidate (st : CacheState) (path : String) : CacheState :=
  { st with cache := st.cache.filter (fun kv => kv.1 ≠ path) }

/-- `SymbolCache.clear`. -/
def cacheClear (st : CacheState) : CacheState :=
  { st with cache := [] }

/-! ## Project completions (`completion.py`, `_get_project_completions`)

`CompletionItem`s are modelled by their `label`, `kind` and `detail`
(the `documentation` markdown is display-only and omitted).  The symbol
cache argument is abstracted to the lookup function `getSyms`
(`symbol_cache.get`), which the completion code treats as a black box. -/

/-- The `CompletionItemKind`s this code emits. -/
inductive CompletionKind where
  | moduleK | functionK | classK | variableK | methodK | fieldK
deriving Repr, DecidableEq

/-- A completion candidate. -/
structure CompletionItem where
  label : String
  kind : CompletionKind
  detail : String
deriving Repr, DecidableEq

/-- The `(prefix, partial)` split at the top of `_get_project_completions`:
strip all trailing dots, else `rsplit` at the last dot. -/
def splitContext (context : String) : String × String :=
  if pyEndsWith context "." then (rstripDots context, "")
  else
    match rsplit1 context with
    | some ab => ab
    | none => (context, "")

/-- The `partial`-filter used throughout: empty, or a case-insensitive
starts-with test. -/
def fragKeeps (frag name : String) : Bool :=
  frag == "" || pyStartsWith (pyLower name) (pyLower frag)

/-- The `detail` string built for a variable completion. -/
def varDetail (v : ScriptVariable) : String :=
  let d := v.type_hint.getD ""
  let d :=
    match v.value_repr with
    | some vr => if d ≠ "" then d ++ " = " ++ vr else "= " ++ vr
    | none => d
  if d = "" then "variable" else d

/-- `_get_leaf_symbol_completions`: public functions, classes and variables
of a leaf module, filtered by `partial`; nothing when the module carries a
(truthy) parse error. -/
def leafSymbolCompletions (loc : ScriptLocation) (frag : String)
    (getSyms : String → String → ModuleSymbols) : List CompletionItem :=
  let symbols := getSyms loc.file_path loc.module_path
  if symbols.parse_error.getD "" ≠ "" then []
  else
    (symbols.functions.filter
        (fun f => !pyStartsWith f.name "_" && fragKeeps frag f.name)).map
      (fun f => { label := f.name, kind := CompletionKind.functionK,
                  detail := f.signature })
    ++ (symbols.classes.filter
        (fun c => !pyStartsWith c.name "_" && fragKeeps frag c.name)).map
      (fun c => { label := c.name, kind := CompletionKind.classK,
                  detail := "class " ++ c.name })
    ++ (symbols.vars.filter
        (fun v => !pyStartsWith v.name "_" && fragKeeps frag v.name)).map
      (fun v => { label := v.name, kind := CompletionKind.variableK,
                  detail := varDetail v })

/-- `_get_class_member_completions`: methods (dunders other than `__init__`
excluded) and class variables. -/
def classMemberCompletions (cls : ScriptClass) (frag : String) : List CompletionItem :=
  (cls.methods.filter
      (fun m => (!pyStartsWith m.name "__" || m.name == "__init__") &&
                fragKeeps frag m.name)).map
    (fun m => { label := m.name, kind := CompletionKind.methodK,
                detail := m.signature })
  ++ (cls.class_variables.filter (fun vn => fragKeeps frag vn)).map
    (fun vn => { label := vn, kind := CompletionKind.fieldK,
                 detail := cls.name ++ "." ++ vn })

/-- The filter + dedup loop of the package branch: fold over the matching
locations, keeping the first `(segment, resource_type)` per segment. -/
def packageSeenStep (pre frag : String) (seen : List (String × String))
    (loc : ScriptLocation) : List (String × String) :=
  let parts := pySplit loc.module_path '.'
  let depth := (pySplit pre '.').length
  if parts.length ≤ depth then seen
  else
    let segment := (parts.getD depth "")
    if frag ≠ "" && !pyStartsWith (pyLower segment) (pyLower frag) then seen
    else if seen.any (fun kv => kv.1 == segment) then seen
    else seen ++ [(segment, loc.resource_type)]

/-- Lexicographic order on code points (Python `str <`), structurally. -/
def listLexLt : List Char → List Char → Bool
  | [], [] => false
  | [], _ :: _ => true
  | _ :: _, [] => false
  | c :: cs, d :: ds =>
    if c.toNat < d.toNat then true
    else if d.toNat < c.toNat then false
    else listLexLt cs ds

/-- Python `a < b` on strings. -/
def pyStrLt (a b : String) : Bool :=
  listLexLt a.data b.data

/-- `sorted(seen.items())`: insertion sort of the segment/kind pairs by
segment (the keys are distinct dict keys, so lexicographic pair order is
key order). -/
def insertSortedPair (p : String × String) :
    List (String × String) → List (String × String)
  | [] => [p]
  | q :: rest =>
    if pyStrLt p.1 q.1 then p :: q :: rest else q :: insertSortedPair p rest

/-- `sorted(seen.items())` over the whole association list. -/
def sortPairs (l : List (String × String)) : List (String × String) :=
  l.foldl (fun acc p => insertSortedPair p acc) []

/-- One completion item of the package branch: a leaf module entry when the
full path matches exactly and has no children, else a namespace entry with
a child count. -/
def packageItem (index : List ScriptLocation) (pre : String)
    (sk : String × String) : CompletionItem :=
  let segment := sk.1
  let fullPath := pre ++ "." ++ segment
  let depth := (pySplit pre '.').length
  let children := (searchModulePaths index fullPath).filter
    (fun s => s.module_path ≠ fullPath)
  let isPackage := !children.isEmpty
  match findByModulePath index fullPath with
  | some _ =>
    if !isPackage then
      { label := segment, kind := CompletionKind.moduleK,
        detail := fullPath ++ " (" ++ sk.2 ++ ")" }
    else
      namespaceItem segment fullPath depth
  | none => namespaceItem segment fullPath depth
where
  /-- The namespace-entry branch with its child count. -/
  namespaceItem (segment fullPath : String) (depth : Nat) : CompletionItem :=
    let childCount := (((searchModulePaths index fullPath).filterMap (fun s =>
      let ps := pySplit s.module_path '.'
      if ps.length > depth then some (ps.getD depth "") else none)).dedup).length
    { label := segment, kind := CompletionKind.moduleK,
      detail := if childCount ≠ 0 then
          fullPath ++ " (" ++ toString childCount ++ " children)"
        else fullPath }

/-- The package-detection branch of `_get_project_completions`. -/
def packageCompletions (index : List ScriptLocation) (pre frag : String) :
    List CompletionItem :=
  let matching := searchModulePaths index pre
  if matching.isEmpty then []
  else
    let seen := matching.foldl (packageSeenStep pre frag) []
    (sortPairs seen).map (packageItem index pre)

/-- `_get_project_completions` (with a symbol cache supplied, as the server
always does): leaf detection, then class-member access, then the package
branch. -/
def getProjectCompletions (index : List ScriptLocation)
    (getSyms : String → String → ModuleSymbols) (context : String) :
    List CompletionItem :=
  let pf := splitContext context
  let pre := pf.1
  let frag := pf.2
  let leafResult : Option (List CompletionItem) :=
    match findByModulePath index pre with
    | some leaf =>
      if leaf.script_key == "__file__" &&
         ((searchModulePaths index pre).filter
           (fun s => s.module_path ≠ pre)).isEmpty then
        some (leafSymbolCompletions leaf frag getSyms)
      else none
    | none => none
  match leafResult with
  | some items => items
  | none =>
    let classResult : Option (List CompletionItem) :=
      match rsplit1 pre with
      | some mc =>
        match findByModulePath index mc.1 with
        | some leaf =>
          if leaf.script_key == "__file__" then
            match (getSyms leaf.file_path leaf.module_path).classes.find?
                (fun c => c.name == mc.2) with
            | some cls => some (classMemberCompletions cls frag)
            | none => none
          else none
        | none => none
      | none => none
    match classResult with
    | some items => items
    | none => packageCompletions index pre frag

/-! ## Definition resolution (`definition.py`, `_resolve_project_script`) -/

/-- The `while "." in candidate` loop of `_resolve_project_script`, with the
candidate held as its dot-segments (`candidate == intercalate "." segs`):
exact match first, then a uniquely-matching prefix, else strip the last
segment and retry; no definition once no dot remains. -/
def resolveAux (index : List ScriptLocation) (segs : List String) :
    Option ScriptLocation :=
  if h : segs.length ≥ 2 then
    let candidate := String.intercalate "." segs
    match findByModulePath index candidate with
    | some loc => some loc
    | none =>
      let ms := searchModulePaths index candidate
      if ms.length = 1 then ms.head?
      else resolveAux index segs.dropLast
  else none
termination_by segs.length
decreasing_by
  have : segs ≠ [] := by
    intro hnil
    rw [hnil] at h
    simp at h
  calc segs.dropLast.length = segs.length - 1 := by
        rw [List.length_dropLast]
    _ < segs.length := by omega

/-- `_resolve_project_script` over the word at the cursor. -/
def resolveProjectScript (index : List ScriptLocation) (word : String) :
    Option ScriptLocation :=
  resolveAux index (pySplit word '.')

/-! ## Spec-side characterizations and concrete fixtures -/

/-- Spec-side name filter for leaf-module candidates (claim C3): keep the
names not beginning with the private marker `_`, filtered by the partial
case-insensitively. -/
def keepPublic (frag name : String) : Bool :=
  !pyStartsWith name "_" && fragKeeps frag name

/-- Spec-side candidate names for a leaf module (claim C3): the module's
top-level function, class and variable names passing `keepPublic`. -/
def specLeafCandidateNames (syms : ModuleSymbols) (frag : String) : List String :=
  (syms.functions.map (·.name)).filter (keepPublic frag)
  ++ (syms.classes.map (·.name)).filter (keepPublic frag)
  ++ (syms.vars.map (·.name)).filter (keepPublic frag)

/-- A symbol-cache stand-in returning no symbols for any file. -/
def getSymsEmpty : String → String → ModuleSymbols :=
  fun fp mp => { file_path := fp, module_path := mp }

/-- Fixture (C1): the `shared/x` standalone module file. -/
def sharedXFile : PyFile := { relDirParts := ["s", "x"], stem := "c" }

/-- Fixture (C1): the child project, declaring parent `"P"`, no scripts. -/
def childProjC1 : Project :=
  { projectData := some { title := some "Child", parent := some "P" } }

/-- Fixture (C1): the parent project `P`, declaring parent `"G"`, defining
module `s.x`. -/
def pProjC1 : Project :=
  { projectData := some { title := some "P", parent := some "G" }
    pyFiles := [sharedXFile] }

/-- Fixture (C1): the grandparent project `G`, defining module `s.x`. -/
def gProjC1 : Project :=
  { projectData := some { title := some "G" }
    pyFiles := [sharedXFile] }

/-- Fixture (C1): the three sibling project directories. -/
def univC1 : Univ := [("Child", childProjC1), ("G", gProjC1), ("P", pProjC1)]

/-- Fixture (C3): standalone module `a.utils`. -/
def locAUtils : ScriptLocation :=
  { file_path := "f1", script_key := "__file__", line_number := 1,
    module_path := "a.utils", resource_type := "script-python" }

/-- Fixture (C3): standalone module `a.utilsX` — a plain string-extension of
`a.utils` that is not a dot-extension. -/
def locAUtilsX : ScriptLocation :=
  { file_path := "f2", script_key := "__file__", line_number := 1,
    module_path := "a.utilsX", resource_type := "script-python" }

/-- Fixture (C3): the two-location index. -/
def indexC3 : List ScriptLocation := [locAUtils, locAUtilsX]

/-- Fixture (C3): symbols of `a.utils` — one public function `foo`. -/
def symsFoo : ModuleSymbols :=
  { file_path := "f1", module_path := "a.utils",
    functions := [{ name := "foo", line_number := 1,
                    signature := "def foo()", params := [] }] }

/-- Fixture (C3): symbol-cache stand-in serving `symsFoo` for file `f1`. -/
def getSymsC3 : String → String → ModuleSymbols :=
  fun fp mp => if fp = "f1" then symsFoo else { file_path := fp, module_path := mp }

/-- Fixture (C4): a lone location whose module path string-extends
`a.utils` across a segment boundary of a different name. -/
def locAUtilsXB : ScriptLocation :=
  { file_path := "f3", script_key := "__file__", line_number := 1,
    module_path := "a.utilsX.b", resource_type := "script-python" }

/-- Fixture (C4): the single-location index. -/
def indexC4 : List ScriptLocation := [locAUtilsXB]

/-- Fixture (C4): the spec scenario index — standalone modules
`project.library.utils` and `project.library.config`. -/
def indexPL : List ScriptLocation :=
  [{ file_path := "u", script_key := "__file__", line_number := 1,
     module_path := "project.library.utils", resource_type := "script-python" },
   { file_path := "v", script_key := "__file__", line_number := 1,
     module_path := "project.library.config", resource_type := "script-python" }]

/-- Fixture (C5): a filesystem with `"f"` at mtime 1. -/
def fsMtime1 : FileSys :=
  fun p => if p = "f" then some (1, "x") else none

/-- Fixture (C5): the same file at mtime 2. -/
def fsMtime2 : FileSys :=
  fun p => if p = "f" then some (2, "x") else none

/-- Fixture (C5/C6): a parse oracle accepting everything with no statements. -/
def parseEmpty : String → Except String (List PyStmt) :=
  fun _ => Except.ok []

/-- Fixture (C5/C6): an identity preprocessing pass. -/
def preId : String → String := fun s => s

/-- Fixture (C6): a parse oracle that always fails, as on a syntax error. -/
def parseFail : String → Except String (List PyStmt) :=
  fun _ => Except.error "invalid syntax (line 1)"

/-- Fixture (C9): a one-location index for the resolution witness. -/
def indexC9 : List ScriptLocation :=
  [{ file_path := "w", script_key := "__file__", line_number := 1,
     module_path := "a.b", resource_type := "script-python" }]

/-- Fixture (C8): project `A`, parent `B`. -/
def projA : Project := { projectData := some { title := some "A", parent := some "B" } }

/-- Fixture (C8): project `B`, parent `A` (a two-cycle with `A`). -/
def projB : Project := { projectData := some { title := some "B", parent := some "A" } }

/-- Fixture (C8): the cyclic universe. -/
def univAB : Univ := [("A", projA), ("B", projB)]

/-- Fixture (C10): a project with one standalone module. -/
def projW : Project :=
  { projectData := some { title := some "W" }
    pyFiles := [{ relDirParts := ["m"], stem := "c" }] }

/-- Fixture (C10): its one-project universe. -/
def univW : Univ := [("W", projW)]

/-! # Theorems -/

/-- C1: the ancestor override order is inverted.  With child `Child`
(no own scripts) → parent `P` → grandparent `G`, where both `P` and `G`
define module `s.x`, the merged index keeps exactly one location for
`s.x` — but it is the GRANDPARENT's (`G`'s), although the closer ancestor
`P` also defines it and `P`'s location differs from `G`'s.  The chain is
collected deepest-ancestor-first and merged with first-wins deduplication,
so the farthest ancestor wins, contradicting the claim (and the code's own
docstring "deepest ancestor first (so closer parents override)"). -/
theorem c1_merge_keeps_farthest_ancestor :
    (scanProject univC1 "Child").scripts = [pyFileLoc "G" sharedXFile]
    ∧ (scanProjectDir "P" pProjC1).map (·.module_path) = ["s.x"]
    ∧ (pyFileLoc "G" sharedXFile).module_path = "s.x"
    ∧ pyFileLoc "G" sharedXFile ≠ pyFileLoc "P" sharedXFile := by
  have h1 : collectParentScripts univC1 "G" ["G", "P"] = [] := by
    rw [collectParentScripts.eq_def]; rfl
  have h2 : collectParentScripts univC1 "P" ["P"]
      = collectParentScripts univC1 "G" ["G", "P"]
        ++ [("G", scanProjectDir "G" gProjC1)] := by
    rw [collectParentScripts.eq_def]; rfl
  have h3 : collectParentScripts univC1 "Child" []
      = collectParentScripts univC1 "P" ["P"]
        ++ [("P", scanProjectDir "P" pProjC1)] := by
    rw [collectParentScripts.eq_def]; rfl
  refine ⟨?_, by decide, by decide, by decide⟩
  show (mergeParents (scanProjectDir "Child" childProjC1)
      (collectParentScripts univC1 "Child" [])).1 = _
  rw [h3, h2, h1]
  decide

/-- C2: the module path of a standalone script file is a function of the
file's directory path relative to the script-module root alone — never of
its content; hyphenated directory segments split into dot segments; a file
with no meaningful relative directory falls back to its bare stem; and the
spec's scenario `script-module/a-b/c/code.py ↦ "a.b.c"` holds through the
scanner. -/
theorem c2_module_path_from_directory_only
    (root stem c₁ c₂ : String) (dirs : List String) :
    ((pyFileLoc root { relDirParts := dirs, stem := stem, content := c₁ }).module_path
      = (pyFileLoc root { relDirParts := dirs, stem := stem, content := c₂ }).module_path)
    ∧ (pyFileLoc root { relDirParts := dirs, stem := stem, content := c₁ }).module_path
      = computeModulePath dirs stem
    ∧ computeModulePath [] stem = stem
    ∧ computeModulePath ["."] stem = stem
    ∧ computeModulePath ["a-b", "c"] stem = "a.b.c"
    ∧ (scanProjectDir "/p"
        { projectData := some {}
          pyFiles := [{ relDirParts := ["a-b", "c"], stem := "code",
                        content := "def f(): pass" }] }).map (·.module_path)
      = ["a.b.c"] := by
  exact ⟨rfl, rfl, rfl, rfl, rfl, rfl⟩

/-- C7 counterexample: a function nested in a class whose first parameter
is not named `self`/`cls` keeps that first parameter in the recorded list
even though the declaration is marked as a method — the claim's "the first
parameter is excluded" fails for it. -/
theorem c7_counterexample :
    (extractClass "C" [] none
        [PyStmt.functionDef "m" ["a", "b"] none [] none 2] 1).methods.map
      (fun m => (m.name, m.params, m.is_method)) = [("m", ["a", "b"], true)]
    ∧ (extractClass "C" [] none
        [PyStmt.functionDef "m" ["a", "b"] none [] none 2] 1).methods.map
      (·.params) ≠ [["b"]] := by
  exact ⟨rfl, by decide⟩

/-- C7 (amended): the recorded parameters are the declared parameters in
order, except that a leading parameter named `self` or `cls` is dropped
(whether or not the function sits in a class); a function nested in a class
is always marked as a method; and the spec's round-trip
`def helper(data, timeout=30)` records `["data", "timeout"]`. -/
theorem c7_params_amended (name : String) (args : List String)
    (retR : Option String) (decs : List String) (doc : Option String)
    (ln : Nat) (cname : String) (basesR : List String) (cdoc : Option String)
    (body : List PyStmt) (cln : Nat) :
    ((extractFunction name args retR decs doc ln).params
      = if args.headD "" = "self" ∨ args.headD "" = "cls"
        then args.tail else args)
    ∧ ((extractFunction name args retR decs doc ln).is_method
      = (args.headD "" = "self" ∨ args.headD "" = "cls" : Bool))
    ∧ (∀ m ∈ (extractClass cname basesR cdoc body cln).methods,
        m.is_method = true)
    ∧ (extractFunction "helper" ["data", "timeout"] none [] none 1).params
      = ["data", "timeout"] := by
  refine ⟨?_, ?_, ?_, rfl⟩
  · cases args with
    | nil => simp [extractFunction]
    | cons a rest =>
      by_cases hs : a = "self" <;> by_cases hc : a = "cls" <;>
        simp [extractFunction, hs, hc]
  · cases args with
    | nil => simp [extractFunction]
    | cons a rest =>
      by_cases hs : a = "self" <;> by_cases hc : a = "cls" <;>
        simp [extractFunction, hs, hc]
  · intro m hm
    have key : ∀ (b : List PyStmt) (acc : List ScriptFunction × List String),
        (∀ f ∈ acc.1, f.is_method = true) →
        ∀ f ∈ (b.foldl (fun acc item =>
          match item with
          | PyStmt.functionDef n as2 rR ds d l =>
            (acc.1 ++ [{ extractFunction n as2 rR ds d l with is_method := true }],
             acc.2)
          | PyStmt.assign targets _ _ =>
            (acc.1, acc.2 ++ targets.filterMap (fun t =>
              match t with
              | PyTarget.name id => some id
              | PyTarget.other => none))
          | _ => acc) acc).1, f.is_method = true := by
      intro b
      induction b with
      | nil => intro acc hacc f hf; exact hacc f hf
      | cons item rest ih =>
        intro acc hacc f hf
        rw [List.foldl_cons] at hf
        refine ih _ ?_ f hf
        cases item with
        | functionDef n as2 rR ds d l =>
          intro g hg
          rcases List.mem_append.mp hg with hg1 | hg2
          · exact hacc g hg1
          · rcases List.mem_singleton.mp hg2 with rfl
            rfl
        | assign targets v l => exact hacc
        | classDef a b2 c d e => exact hacc
        | annAssign a b2 c d => exact hacc
        | other => exact hacc
    exact key body ([], []) (fun f hf => absurd hf (List.not_mem_nil f)) m hm

/-- C7 witness: the amended statement instantiated at the counterexample
class body and a top-level function. -/
theorem c7_params_witness :
    (∀ m ∈ (extractClass "C" [] none
        [PyStmt.functionDef "m" ["a", "b"] none [] none 2] 1).methods,
      m.is_method = true)
    ∧ (extractFunction "helper" ["data", "timeout"] none [] none 1).params
      = ["data", "timeout"] :=
  ⟨(c7_params_amended "m" ["a", "b"] none [] none 2 "C" []
      none [PyStmt.functionDef "m" ["a", "b"] none [] none 2] 1).2.2.1,
   (c7_params_amended "helper" ["data", "timeout"] none [] none 1 "C" []
      none [] 1).2.2.2⟩

/-- The top-level extraction loop never touches the metadata fields:
`parse_error`, `file_mtime`, `file_path`, `module_path`, `objId` all come
from the initial record. -/
theorem extractTopLevel_foldl_meta (stmts : List PyStmt) (acc : ModuleSymbols) :
    (stmts.foldl extractTopLevel acc).parse_error = acc.parse_error
    ∧ (stmts.foldl extractTopLevel acc).file_mtime = acc.file_mtime
    ∧ (stmts.foldl extractTopLevel acc).file_path = acc.file_path
    ∧ (stmts.foldl extractTopLevel acc).module_path = acc.module_path
    ∧ (stmts.foldl extractTopLevel acc).objId = acc.objId := by
  induction stmts generalizing acc with
  | nil => exact ⟨rfl, rfl, rfl, rfl, rfl⟩
  | cons s rest ih =>
    have hstep : (extractTopLevel acc s).parse_error = acc.parse_error
        ∧ (extractTopLevel acc s).file_mtime = acc.file_mtime
        ∧ (extractTopLevel acc s).file_path = acc.file_path
        ∧ (extractTopLevel acc s).module_path = acc.module_path
        ∧ (extractTopLevel acc s).objId = acc.objId := by
      cases s with
      | annAssign t a v l => cases t <;> exact ⟨rfl, rfl, rfl, rfl, rfl⟩
      | _ => exact ⟨rfl, rfl, rfl, rfl, rfl⟩
    rw [List.foldl_cons]
    rcases ih (extractTopLevel acc s) with ⟨p1, p2, p3, p4, p5⟩
    rcases hstep with ⟨q1, q2, q3, q4, q5⟩
    exact ⟨p1.trans q1, p2.trans q2, p3.trans q3, p4.trans q4, p5.trans q5⟩

/-- A "File not found" message is never empty. -/
theorem fileNotFoundMsg_ne (path : String) :
    ("File not found: " ++ path) ≠ "" := by
  intro h
  have hd := congrArg String.data h
  rw [String.data_append] at hd
  simp at hd

/-- C6: symbol extraction is total, and on every failure path (missing or
unreadable file, parse failure) the result carries a non-empty
`parse_error` and empty `functions`/`classes`/`variables` sequences; a
missing file gets the distinct `"File not found: …"` description; and
`parse_error` is `none` exactly when reading and parsing both succeed.
(The two oracle hypotheses record that Python's `str(e)` rendering of an
`OSError`/`UnicodeDecodeError`/`SyntaxError` is never the empty string.) -/
theorem c6_extraction_error_shape (mtimeRes : Option Int)
    (contentRes : Except String String) (pre : String → String)
    (parse : String → Except String (List PyStmt)) (path mp : String)
    (hc : ∀ e, contentRes = Except.error e → e ≠ "")
    (hp : ∀ s e, parse s = Except.error e → e ≠ "") :
    (∀ err, (extractSymbolsModel mtimeRes contentRes pre parse path mp).parse_error
        = some err →
      (extractSymbolsModel mtimeRes contentRes pre parse path mp).functions = []
      ∧ (extractSymbolsModel mtimeRes contentRes pre parse path mp).classes = []
      ∧ (extractSymbolsModel mtimeRes contentRes pre parse path mp).vars = []
      ∧ err ≠ "")
    ∧ (mtimeRes = none →
        (extractSymbolsModel mtimeRes contentRes pre parse path mp).parse_error
          = some ("File not found: " ++ path))
    ∧ (∀ m s stmts, mtimeRes = some m → contentRes = Except.ok s →
        parse (pre s) = Except.ok stmts →
        (extractSymbolsModel mtimeRes contentRes pre parse path mp).parse_error
          = none) := by
  refine ⟨?_, ?_, ?_⟩
  · intro err herr
    cases mtimeRes with
    | none =>
      simp only [extractSymbolsModel] at herr
      cases herr
      exact ⟨rfl, rfl, rfl, fileNotFoundMsg_ne path⟩
    | some m =>
      cases contentRes with
      | error e =>
        simp only [extractSymbolsModel] at herr
        cases herr
        exact ⟨rfl, rfl, rfl, hc err rfl⟩
      | ok source =>
        cases hpp : parse (pre source) with
        | error e =>
          simp only [extractSymbolsModel, hpp] at herr
          cases herr
          refine ⟨?_, ?_, ?_, hp (pre source) err hpp⟩ <;>
            simp [extractSymbolsModel, hpp]
        | ok stmts =>
          exfalso
          simp only [extractSymbolsModel, hpp] at herr
          rw [(extractTopLevel_foldl_meta stmts _).1] at herr
          cases herr
  · intro hm
    subst hm
    rfl
  · intro m s stmts hm hcon hps
    subst hm
    subst hcon
    simp only [extractSymbolsModel, hps]
    exact (extractTopLevel_foldl_meta stmts _).1

/-- C6 witness: the three branches exercised concretely — a missing file, a
failing parse, and a successful parse. -/
theorem c6_extraction_error_witness :
    ((extractSymbolsModel none (Except.ok "") preId parseEmpty "p" "m").parse_error
      = some "File not found: p")
    ∧ ((extractSymbolsModel (some 1) (Except.ok "def (") preId parseFail "p" "m").functions
        = []
      ∧ (extractSymbolsModel (some 1) (Except.ok "def (") preId parseFail "p" "m").classes
        = []
      ∧ (extractSymbolsModel (some 1) (Except.ok "def (") preId parseFail "p" "m").vars
        = []
      ∧ "invalid syntax (line 1)" ≠ "")
    ∧ ((extractSymbolsModel (some 1) (Except.ok "x = 1") preId parseEmpty "p" "m").parse_error
      = none) := by
  refine ⟨?_, ?_, ?_⟩
  · exact (c6_extraction_error_shape none (Except.ok "") preId parseEmpty "p" "m"
      (fun e he => by cases he) (fun s e he => by cases he)).2.1 rfl
  · exact (c6_extraction_error_shape (some 1) (Except.ok "def (") preId parseFail "p" "m"
      (fun e he => by cases he)
      (fun s e he => by cases he; decide)).1 "invalid syntax (line 1)" rfl
  · exact (c6_extraction_error_shape (some 1) (Except.ok "x = 1") preId parseEmpty "p" "m"
      (fun e he => by cases he) (fun s e he => by cases he)).2.2 1 "x = 1" []
      rfl rfl rfl

/-- `extractFromFS` stamps the allocation id it is given. -/
theorem extractFromFS_objId (fs : FileSys) (pre : String → String)
    (parse : String → Except String (List PyStmt)) (path mp : String) (id : Nat) :
    (extractFromFS fs pre parse path mp id).objId = id := rfl

/-- When the file is readable, an extraction through the cache records the
file's current modification time. -/
theorem extractFromFS_mtime (fs : FileSys) (pre : String → String)
    (parse : String → Except String (List PyStmt)) (path mp : String)
    (id : Nat) (m : Int) (c : String) (hfs : fs path = some (m, c)) :
    (extractFromFS fs pre parse path mp id).file_mtime = m := by
  simp only [extractFromFS, hfs, Option.map_some]
  cases hpp : parse (pre c) with
  | error e => simp [extractSymbolsModel, hpp]
  | ok stmts =>
    simp only [extractSymbolsModel, hpp]
    exact (extractTopLevel_foldl_meta stmts _).2.1

/-- After a dict assignment, lookup of the assigned key yields the new
value. -/
theorem find_setEntry (c : List (String × ModuleSymbols)) (k : String)
    (v : ModuleSymbols) :
    (setEntry c k v).find? (fun kv => kv.1 == k) = some (k, v) := by
  induction c with
  | nil => simp [setEntry]
  | cons a rest ih =>
    by_cases ha : a.1 = k
    · simp [setEntry, List.any_cons, ha, List.find?]
    · have hstep : setEntry (a :: rest) k v = a :: setEntry rest k v := by
        cases hany : rest.any (fun kv => kv.1 == k) with
        | true => simp [setEntry, List.any_cons, ha, hany]
        | false => simp [setEntry, List.any_cons, ha, hany]
      rw [hstep]
      rw [List.find?_cons_of_neg _ (by simp [ha])]
      exact ih

/-- After any `get` with a readable modification time, the returned object
carries that time and is exactly the object stored for the path. -/
theorem cacheGet_readable (fs : FileSys) (pre : String → String)
    (parse : String → Except String (List PyStmt)) (st : CacheState)
    (path mp : String) (m : Int) (c : String) (hfs : fs path = some (m, c)) :
    (cacheGet fs pre parse st path mp).1.file_mtime = m
    ∧ ((cacheGet fs pre parse st path mp).2.cache.find?
        (fun kv => kv.1 == path)).map (·.2)
      = some (cacheGet fs pre parse st path mp).1 := by
  simp only [cacheGet, hfs]
  cases hfind : (st.cache.find? (fun kv => kv.1 == path)).map (·.2) with
  | some cached =>
    cases hbeq : cached.file_mtime == m with
    | true =>
      simp only [hbeq, if_true]
      exact ⟨by simpa using hbeq, hfind⟩
    | false =>
      simp only [hbeq, Bool.false_eq_true, if_false]
      refine ⟨extractFromFS_mtime fs pre parse path mp st.nextId m c hfs, ?_⟩
      rw [find_setEntry]
      rfl
  | none =>
    simp only []
    refine ⟨extractFromFS_mtime fs pre parse path mp st.nextId m c hfs, ?_⟩
    rw [find_setEntry]
    rfl

/-- C5: symbol-cache correctness.  (1) Two consecutive `get` calls with the
file's modification time unchanged return the identical stored object (the
same allocation, hence reference-identical) and leave the state untouched;
(2) once the modification time has changed, `get` returns a freshly
allocated extraction, different from the previous object; (3) when the
modification time cannot be read, `get` returns a fresh extraction and
stores nothing. -/
theorem c5_symbol_cache_correctness (fs fs2 : FileSys) (pre : String → String)
    (parse : String → Except String (List PyStmt))
    (st : CacheState) (path mp : String) :
    (∀ m c, fs path = some (m, c) →
      (cacheGet fs pre parse (cacheGet fs pre parse st path mp).2 path mp).1
        = (cacheGet fs pre parse st path mp).1
      ∧ (cacheGet fs pre parse (cacheGet fs pre parse st path mp).2 path mp).2
        = (cacheGet fs pre parse st path mp).2)
    ∧ (∀ m c m2 c2, fs path = some (m, c) → fs2 path = some (m2, c2) → m ≠ m2 →
      (cacheGet fs2 pre parse (cacheGet fs pre parse st path mp).2 path mp).1
        = extractFromFS fs2 pre parse path mp
            (cacheGet fs pre parse st path mp).2.nextId
      ∧ (cacheGet fs2 pre parse (cacheGet fs pre parse st path mp).2 path mp).1
        ≠ (cacheGet fs pre parse st path mp).1)
    ∧ (fs path = none →
      (cacheGet fs pre parse st path mp).1
        = extractFromFS fs pre parse path mp st.nextId
      ∧ (cacheGet fs pre parse st path mp).2.cache = st.cache) := by
  refine ⟨?_, ?_, ?_⟩
  · intro m c hfs
    rcases cacheGet_readable fs pre parse st path mp m c hfs with ⟨hmt, hentry⟩
    have hbeq : ((cacheGet fs pre parse st path mp).1.file_mtime == m) = true := by
      simpa using hmt
    constructor
    · conv_lhs => rw [cacheGet]
      rw [hfs]
      rw [hentry]
      simp only [hbeq, if_true]
    · conv_lhs => rw [cacheGet]
      rw [hfs]
      rw [hentry]
      simp only [hbeq, if_true]
  · intro m c m2 c2 hfs hfs2 hne
    rcases cacheGet_readable fs pre parse st path mp m c hfs with ⟨hmt, hentry⟩
    have hbeq : ((cacheGet fs pre parse st path mp).1.file_mtime == m2) = false := by
      simp [hmt, hne]
    have hres :
        (cacheGet fs2 pre parse (cacheGet fs pre parse st path mp).2 path mp).1
          = extractFromFS fs2 pre parse path mp
              (cacheGet fs pre parse st path mp).2.nextId := by
      conv_lhs => rw [cacheGet]
      rw [hfs2]
      rw [hentry]
      simp only [hbeq, Bool.false_eq_true, if_false]
    refine ⟨hres, ?_⟩
    rw [hres]
    intro heq
    have h2 : (extractFromFS fs2 pre parse path mp
        (cacheGet fs pre parse st path mp).2.nextId).file_mtime = m2 :=
      extractFromFS_mtime fs2 pre parse path mp _ m2 c2 hfs2
    rw [heq, hmt] at h2
    exact hne h2
  · intro hfs
    constructor
    · conv_lhs => rw [cacheGet]
      rw [hfs]
    · conv_lhs => rw [cacheGet]
      rw [hfs]

/-- C5 witness: the three cache clauses exercised on a concrete one-file
filesystem, starting from the empty cache. -/
theorem c5_symbol_cache_witness :
    (fsMtime1 "f" = some (1, "x")
      ∧ (cacheGet fsMtime1 preId parseEmpty
          (cacheGet fsMtime1 preId parseEmpty {} "f" "m").2 "f" "m").1
        = (cacheGet fsMtime1 preId parseEmpty {} "f" "m").1)
    ∧ ((1 : Int) ≠ 2
      ∧ (cacheGet fsMtime2 preId parseEmpty
          (cacheGet fsMtime1 preId parseEmpty {} "f" "m").2 "f" "m").1
        ≠ (cacheGet fsMtime1 preId parseEmpty {} "f" "m").1)
    ∧ (fsMtime1 "g" = none
      ∧ (cacheGet fsMtime1 preId parseEmpty {} "g" "m").2.cache = []) := by
  refine ⟨⟨rfl, ?_⟩, ⟨by decide, ?_⟩, ⟨rfl, ?_⟩⟩
  · exact ((c5_symbol_cache_correctness fsMtime1 fsMtime1 preId parseEmpty
      {} "f" "m").1 1 "x" rfl).1
  · exact ((c5_symbol_cache_correctness fsMtime1 fsMtime2 preId parseEmpty
      {} "f" "m").2.1 1 "x" 2 "x" rfl rfl (by decide)).2
  · exact ((c5_symbol_cache_correctness fsMtime1 fsMtime1 preId parseEmpty
      {} "g" "m").2.2 rfl).2

/-- C9: project definition resolution for a dotted reference.  While a dot
remains, the candidate (the joined segments) is tried as an exact
`module_path` first; failing that, a prefix search that matches exactly one
location resolves to it, while zero or several matches (the ambiguous case)
fall through to the candidate with its last dotted segment stripped; once
no dot remains the resolution returns no definition. -/
theorem c9_definition_resolution (index : List ScriptLocation)
    (segs : List String) (word : String) (h2 : segs.length ≥ 2) :
    (resolveProjectScript index word = resolveAux index (pySplit word '.'))
    ∧ (∀ loc, findByModulePath index (String.intercalate "." segs) = some loc →
        resolveAux index segs = some loc)
    ∧ (findByModulePath index (String.intercalate "." segs) = none →
        (searchModulePaths index (String.intercalate "." segs)).length = 1 →
        resolveAux index segs
          = (searchModulePaths index (String.intercalate "." segs)).head?)
    ∧ (findByModulePath index (String.intercalate "." segs) = none →
        (searchModulePaths index (String.intercalate "." segs)).length ≠ 1 →
        resolveAux index segs = resolveAux index segs.dropLast)
    ∧ (∀ t : List String, t.length < 2 → resolveAux index t = none) := by
  refine ⟨rfl, ?_, ?_, ?_, ?_⟩
  · intro loc hfind
    rw [resolveAux.eq_def, dif_pos h2]
    simp only [hfind]
  · intro hfind hlen
    rw [resolveAux.eq_def, dif_pos h2]
    simp only [hfind, if_pos hlen]
  · intro hfind hlen
    rw [resolveAux.eq_def, dif_pos h2]
    simp only [hfind, if_neg hlen]
  · intro t ht
    rw [resolveAux.eq_def, dif_neg (by omega)]

/-- C9 witness: resolution on a one-location index at the word `a.b`. -/
theorem c9_definition_resolution_witness :
    (["a", "b"] : List String).length ≥ 2
    ∧ resolveProjectScript indexC9 "a.b" = resolveAux indexC9 (pySplit "a.b" '.')
    ∧ resolveAux indexC9 ["a", "b"]
      = some { file_path := "w", script_key := "__file__", line_number := 1,
               module_path := "a.b", resource_type := "script-python" } :=
  ⟨by decide,
   (c9_definition_resolution indexC9 ["a", "b"] "a.b" (by decide)).1,
   (c9_definition_resolution indexC9 ["a", "b"] "a.b" (by decide)).2.1 _ rfl⟩

/-- Every resolved parent path names a directory of the universe. -/
theorem resolveParentPath_mem {univ : Univ} {root parentName r : String}
    (h : resolveParentPath univ root parentName = some r) :
    r ∈ univ.map Prod.fst := by
  unfold resolveParentPath at h
  split at h
  · next kv hfind =>
    cases h
    exact List.mem_map_of_mem Prod.fst (List.mem_of_find?_eq_some hfind)
  · split at h
    · next hcond =>
      cases h
      rw [Bool.and_eq_true] at hcond
      rcases List.any_eq_true.mp hcond.1 with ⟨kv, hkvmem, hkv⟩
      rcases kv with ⟨k, p⟩
      simp only [beq_iff_eq] at hkv
      subst hkv
      exact List.mem_map_of_mem Prod.fst hkvmem
    · cases h

/-- Visiting one more unvisited universe member strictly shrinks the set of
reachable-but-unvisited directories. -/
theorem sdiff_visited_card_lt (keys : Finset String) (visited : List String)
    (p : String) (hmem : p ∈ keys) (hnv : ¬ p ∈ visited) :
    (keys \ ((p :: visited).toFinset)).card < (keys \ visited.toFinset).card := by
  apply Finset.card_lt_card
  constructor
  · intro x hx
    rcases Finset.mem_sdiff.mp hx with ⟨hx1, hx2⟩
    refine Finset.mem_sdiff.mpr ⟨hx1, fun hx3 => hx2 ?_⟩
    simp only [List.toFinset_cons, Finset.mem_insert]
    exact Or.inr hx3
  · intro hsub
    have hp : p ∈ keys \ visited.toFinset :=
      Finset.mem_sdiff.mpr ⟨hmem, by simpa using hnv⟩
    rcases Finset.mem_sdiff.mp (hsub hp) with ⟨_, hc⟩
    exact hc (by simp)

/-- The ancestor chain is never longer than the number of sibling project
directories not yet visited: the `visited` set bounds the recursion. -/
theorem collectParentScripts_length_le (univ : Univ) (root : String)
    (visited : List String) :
    (collectParentScripts univ root visited).length
      ≤ ((univ.map Prod.fst).toFinset \ visited.toFinset).card := by
  induction root, visited using collectParentScripts.induct univ with
  | case1 root visited h =>
    rw [collectParentScripts.eq_def]
    simp [h]
  | case2 root visited pd hpd hpar =>
    rw [collectParentScripts.eq_def]
    simp [hpd, hpar]
  | case3 root visited pd hpd hpar =>
    rw [collectParentScripts.eq_def]
    simp [hpd, hpar]
  | case4 root visited pd hpd text hpar hne hres =>
    rw [collectParentScripts.eq_def]
    simp only [hpd, hpar]
    rw [if_neg hne]
    split
    · simp
    · next ps hps =>
      rw [hres] at hps
      cases hps
  | case5 root visited pd hpd text hpar hne parentStr hres hvis =>
    rw [collectParentScripts.eq_def]
    simp only [hpd, hpar]
    rw [if_neg hne]
    split
    · simp
    · next ps hps =>
      rw [hres] at hps
      cases hps
      rw [dif_pos hvis]
      simp
  | case6 root visited pd hpd text hpar hne parentStr hres hvis visited' ih =>
    rw [collectParentScripts.eq_def]
    simp only [hpd, hpar]
    rw [if_neg hne]
    split
    · next hps =>
      rw [hres] at hps
      cases hps
    · next ps hps =>
      rw [hres] at hps
      cases hps
      rw [dif_neg hvis]
      rw [List.length_append]
      have ih2 : (collectParentScripts univ parentStr (parentStr :: visited)).length
          ≤ ((univ.map Prod.fst).toFinset \ (parentStr :: visited).toFinset).card := ih
      have hmem : parentStr ∈ (univ.map Prod.fst).toFinset :=
        List.mem_toFinset.mpr (resolveParentPath_mem hres)
      have hnv : ¬ parentStr ∈ visited := by simpa using hvis
      have hlt := sdiff_visited_card_lt ((univ.map Prod.fst).toFinset) visited
        parentStr hmem hnv
      simp only [List.length_singleton]
      omega

/-- C8: for every universe of sibling projects — cyclic ancestor chains
included — `scan` is total and returns an index rooted at the requested
path, with the collected ancestor chain bounded by the number of project
directories; concretely, the two-cycle `A ↔ B` scans to a stamped index
whose chain was truncated at the cycle. -/
theorem c8_scan_terminates_on_cycles (univ : Univ) (root : String)
    (visited : List String) :
    ((collectParentScripts univ root visited).length
      ≤ ((univ.map Prod.fst).toFinset \ visited.toFinset).card)
    ∧ (scanProject univ root).root_path = root
    ∧ scanProject univAB "A"
      = { root_path := "A", scripts := [], parent_roots := ["A", "B"],
          last_updated := true } := by
  refine ⟨collectParentScripts_length_le univ root visited, ?_, ?_⟩
  · unfold scanProject
    split
    · rfl
    · split
      · rfl
      · rfl
  · have hA2 : collectParentScripts univAB "A" ["A", "B"] = [] := by
      rw [collectParentScripts.eq_def]; rfl
    have hB : collectParentScripts univAB "B" ["B"]
        = collectParentScripts univAB "A" ["A", "B"]
          ++ [("A", scanProjectDir "A" projA)] := by
      rw [collectParentScripts.eq_def]; rfl
    have hA : collectParentScripts univAB "A" []
        = collectParentScripts univAB "B" ["B"]
          ++ [("B", scanProjectDir "B" projB)] := by
      rw [collectParentScripts.eq_def]; rfl
    show ({ root_path := "A",
            scripts := (mergeParents (scanProjectDir "A" projA)
              (collectParentScripts univAB "A" [])).1,
            parent_roots := (mergeParents (scanProjectDir "A" projA)
              (collectParentScripts univAB "A" [])).2,
            last_updated := true } : ProjectIndex) = _
    rw [hA, hB, hA2]
    decide

/-- `findFirstLine` indices are 1-based. -/
theorem findFirstLine_ge1 (lines : List String) (p : String → Bool) (i : Nat)
    (h : findFirstLine lines p = some i) : 1 ≤ i := by
  unfold findFirstLine at h
  split at h
  · cases h; omega
  · cases h

/-- The best-effort line search never returns a line below 1. -/
theorem findKeyLine_ge1 (rawText key valuePrefix : String) :
    1 ≤ findKeyLine rawText key valuePrefix := by
  unfold findKeyLine
  dsimp only
  split
  · next i hi => exact findFirstLine_ge1 _ _ i hi
  · split
    · next i hi => exact findFirstLine_ge1 _ _ i hi
    · omega

/-- Every triple emitted by the JSON walk carries a 1-based line number. -/
theorem walkJson_line_ge1 (raw : String) :
    ∀ (node : Json) (ctx : String), ∀ e ∈ walkJson raw node ctx, 1 ≤ e.2.1 := by
  refine walkJson.induct raw
    (fun node ctx => ∀ e ∈ walkJson raw node ctx, 1 ≤ e.2.1)
    (fun items ctx => ∀ e ∈ walkItems raw items ctx, 1 ≤ e.2.1)
    (fun fields cur => ∀ e ∈ walkFields raw fields cur, 1 ≤ e.2.1)
    ?_ ?_ ?_ ?_ ?_ ?_ ?_
  · intro ctx fields nameDef curDef ih e he
    rw [walkJson.eq_def] at he
    exact ih e he
  · intro ctx items ih e he
    rw [walkJson.eq_def] at he
    exact ih e he
  · intro t ctx hobj harr e he
    cases t with
    | obj fields => exact (hobj fields rfl).elim
    | arr items => exact (harr items rfl).elim
    | str s => rw [walkJson.eq_def] at he; cases he
    | num n => rw [walkJson.eq_def] at he; cases he
    | bool b => rw [walkJson.eq_def] at he; cases he
    | null => rw [walkJson.eq_def] at he; cases he
  · intro cur e he
    rw [walkFields.eq_def] at he
    cases he
  · intro cur k v rest ihv ihrest e he
    rw [walkFields.eq_def] at he
    rcases List.mem_append.mp he with h1 | h2
    · clear he
      cases v with
      | str s =>
        replace h1 : e ∈ (if (SCRIPT_KEYS.contains k && decide (pyStrip s ≠ "")) = true
            then [(k, findKeyLine raw k s, cur)] else []) := h1
        by_cases hc : (SCRIPT_KEYS.contains k && decide (pyStrip s ≠ "")) = true
        · rw [if_pos hc] at h1
          rcases List.mem_singleton.mp h1 with rfl
          exact findKeyLine_ge1 raw k s
        · rw [if_neg hc] at h1
          cases h1
      | obj inner =>
        replace h1 : e ∈ (if SCRIPT_KEYS.contains k = true
            then (match List.find? (fun kv => kv.1 == "script") inner with
              | some (_, Json.str innerS) =>
                if pyStrip innerS ≠ "" then [(k, findKeyLine raw "script" innerS, cur)]
                else []
              | _ => [])
            else walkJson raw (Json.obj inner) cur) := h1
        by_cases hk : SCRIPT_KEYS.contains k = true
        · rw [if_pos hk] at h1
          cases hfind : List.find? (fun kv => kv.1 == "script") inner with
          | none =>
            rw [hfind] at h1
            exact absurd h1 (List.not_mem_nil e)
          | some kv =>
            rw [hfind] at h1
            rcases kv with ⟨f, v2⟩
            cases v2 with
            | str innerS =>
              replace h1 : e ∈ (if pyStrip innerS ≠ ""
                  then [(k, findKeyLine raw "script" innerS, cur)] else []) := h1
              by_cases ht : pyStrip innerS ≠ ""
              · rw [if_pos ht] at h1
                rcases List.mem_singleton.mp h1 with rfl
                exact findKeyLine_ge1 raw "script" innerS
              · rw [if_neg ht] at h1
                cases h1
            | obj o => exact absurd h1 (List.not_mem_nil e)
            | arr a => exact absurd h1 (List.not_mem_nil e)
            | num n => exact absurd h1 (List.not_mem_nil e)
            | bool b => exact absurd h1 (List.not_mem_nil e)
            | null => exact absurd h1 (List.not_mem_nil e)
        · rw [if_neg hk] at h1
          exact ihv e h1
      | arr items => exact ihv e h1
      | num n => exact ihv e h1
      | bool b => exact ihv e h1
      | null => exact ihv e h1
    · exact ihrest e h2
  · intro ctx e he
    rw [walkItems.eq_def] at he
    cases he
  · intro ctx item rest ihitem ihrest e he
    rw [walkItems.eq_def] at he
    rcases List.mem_append.mp he with h1 | h2
    · exact ihitem e h1
    · exact ihrest e h2

/-- Every location emitted for one JSON document has a 1-based line. -/
theorem scanJsonFile_line_ge1 (root : String) (f : JsonFile)
    (rt mp : String) :
    ∀ loc ∈ scanJsonFile root f rt mp, 1 ≤ loc.line_number := by
  intro loc hloc
  unfold scanJsonFile at hloc
  split at hloc
  · cases hloc
  · split at hloc
    · cases hloc
    · next text htext =>
      split at hloc
      · cases hloc
      · next data hdata =>
        rcases List.mem_map.mp hloc with ⟨e, he, rfl⟩
        exact walkJson_line_ge1 text data "" e he

/-- Every location a project directory scan emits has a 1-based line. -/
theorem scanProjectDir_line_ge1 (root : String) (p : Project) :
    ∀ loc ∈ scanProjectDir root p, 1 ≤ loc.line_number := by
  intro loc hloc
  unfold scanProjectDir at hloc
  rcases List.mem_append.mp hloc with h1 | h4
  · rcases List.mem_append.mp h1 with h2 | h3
    · rcases List.mem_append.mp h2 with h5 | h6
      · rcases List.mem_map.mp h5 with ⟨f, _, rfl⟩
        exact Nat.le_refl 1
      · rcases List.mem_flatMap.mp h6 with ⟨f, _, hf⟩
        exact scanJsonFile_line_ge1 root f _ _ loc hf
    · rcases List.mem_flatMap.mp h3 with ⟨rf, _, hf⟩
      exact scanJsonFile_line_ge1 root rf.2 _ _ loc hf
  · rcases List.mem_flatMap.mp h4 with ⟨f, _, hf⟩
    exact scanJsonFile_line_ge1 root f _ _ loc hf

/-- Every script carried by the collected ancestor chain has a 1-based
line number. -/
theorem collectParentScripts_line_ge1 (univ : Univ) (root : String)
    (visited : List String) :
    ∀ entry ∈ collectParentScripts univ root visited,
      ∀ loc ∈ entry.2, 1 ≤ loc.line_number := by
  induction root, visited using collectParentScripts.induct univ with
  | case1 root visited h =>
    intro entry hentry
    rw [collectParentScripts.eq_def] at hentry
    simp [h] at hentry
  | case2 root visited pd hpd hpar =>
    intro entry hentry
    rw [collectParentScripts.eq_def] at hentry
    simp [hpd, hpar] at hentry
  | case3 root visited pd hpd hpar =>
    intro entry hentry
    rw [collectParentScripts.eq_def] at hentry
    simp [hpd, hpar] at hentry
  | case4 root visited pd hpd text hpar hne hres =>
    intro entry hentry
    rw [collectParentScripts.eq_def] at hentry
    simp only [hpd, hpar] at hentry
    rw [if_neg hne] at hentry
    split at hentry
    · cases hentry
    · next ps hps =>
      rw [hres] at hps
      cases hps
  | case5 root visited pd hpd text hpar hne parentStr hres hvis =>
    intro entry hentry
    rw [collectParentScripts.eq_def] at hentry
    simp only [hpd, hpar] at hentry
    rw [if_neg hne] at hentry
    split at hentry
    · cases hentry
    · next ps hps =>
      rw [hres] at hps
      cases hps
      rw [dif_pos hvis] at hentry
      cases hentry
  | case6 root visited pd hpd text hpar hne parentStr hres hvis visited' ih =>
    intro entry hentry
    rw [collectParentScripts.eq_def] at hentry
    simp only [hpd, hpar] at hentry
    rw [if_neg hne] at hentry
    split at hentry
    · next hps =>
      rw [hres] at hps
      cases hps
    · next ps hps =>
      rw [hres] at hps
      cases hps
      rw [dif_neg hvis] at hentry
      rcases List.mem_append.mp hentry with hrec | hone
      · exact ih entry hrec
      · rcases List.mem_singleton.mp hone with rfl
        intro loc hloc
        split at hloc
        · next pp hpp =>
          split at hloc
          · exact scanProjectDir_line_ge1 parentStr pp loc hloc
          · cases hloc
        · cases hloc

/-- The inner merge loop only ever returns scripts drawn from the
accumulator or the incoming list. -/
theorem mergeOne_foldl_mem (incoming : List ScriptLocation) (acc : MergeAcc)
    (x : ScriptLocation) (hx : x ∈ (incoming.foldl mergeOne acc).1) :
    x ∈ acc.1 ∨ x ∈ incoming := by
  induction incoming generalizing acc with
  | nil => exact Or.inl hx
  | cons s rest ih =>
    rw [List.foldl_cons] at hx
    rcases ih (mergeOne acc s) hx with h1 | h2
    · unfold mergeOne at h1
      split at h1
      · exact Or.inl h1
      · rcases List.mem_append.mp h1 with h3 | h4
        · exact Or.inl h3
        · rcases List.mem_singleton.mp h4 with rfl
          exact Or.inr (List.mem_cons_self x rest)
    · exact Or.inr (List.mem_cons_of_mem s h2)

/-- The merged scripts all come from the child scan or the ancestor chain. -/
theorem mergeParents_mem (childScripts : List ScriptLocation)
    (chain : List (String × List ScriptLocation)) (x : ScriptLocation)
    (hx : x ∈ (mergeParents childScripts chain).1) :
    x ∈ childScripts ∨ ∃ entry ∈ chain, x ∈ entry.2 := by
  have key : ∀ (ch : List (String × List ScriptLocation)) (acc : MergeAcc),
      x ∈ (ch.foldl mergeEntry acc).1 →
      x ∈ acc.1 ∨ ∃ entry ∈ ch, x ∈ entry.2 := by
    intro ch
    induction ch with
    | nil => exact fun acc h => Or.inl h
    | cons entry rest ih =>
      intro acc h
      rw [List.foldl_cons] at h
      rcases ih (mergeEntry acc entry) h with h1 | h2
      · unfold mergeEntry at h1
        rcases mergeOne_foldl_mem entry.2 _ x h1 with h3 | h4
        · exact Or.inl h3
        · exact Or.inr ⟨entry, List.mem_cons_self entry rest, h4⟩
      · rcases h2 with ⟨e, he, hxe⟩
        exact Or.inr ⟨e, List.mem_cons_of_mem entry he, hxe⟩
  exact key chain _ hx

/-- C10: every `ScriptLocation` of every scan has `line_number ≥ 1` —
standalone files are emitted at line 1, and the textual line search for
embedded scripts returns a 1-based index or falls back to 1. -/
theorem c10_line_numbers_positive (univ : Univ) (root : String) :
    ∀ loc ∈ (scanProject univ root).scripts, 1 ≤ loc.line_number := by
  intro loc hloc
  unfold scanProject at hloc
  split at hloc
  · cases hloc
  · next proj hproj =>
    split at hloc
    · rcases mergeParents_mem _ _ loc hloc with h1 | ⟨entry, hentry, hx⟩
      · exact scanProjectDir_line_ge1 root proj loc h1
      · exact collectParentScripts_line_ge1 univ root [] entry hentry loc hx
    · cases hloc

/-- C10 witness: the invariant applied to a concrete one-module scan. -/
theorem c10_line_numbers_witness :
    pyFileLoc "W" { relDirParts := ["m"], stem := "c" }
      ∈ (scanProject univW "W").scripts
    ∧ 1 ≤ (pyFileLoc "W" { relDirParts := ["m"], stem := "c" }).line_number := by
  have hchain : collectParentScripts univW "W" [] = [] := by
    rw [collectParentScripts.eq_def]; rfl
  have hs : (scanProject univW "W").scripts
      = [pyFileLoc "W" { relDirParts := ["m"], stem := "c" }] := by
    show (mergeParents (scanProjectDir "W" projW)
        (collectParentScripts univW "W" [])).1 = _
    rw [hchain]
    decide
  have hmem : pyFileLoc "W" { relDirParts := ["m"], stem := "c" }
      ∈ (scanProject univW "W").scripts := by
    rw [hs]
    exact List.mem_singleton.mpr rfl
  exact ⟨hmem, c10_line_numbers_positive univW "W" _ hmem⟩

/-- Projecting labels out of filtered-then-rendered symbol lists equals
filtering the projected names. -/
theorem map_label_filter {α : Type} (l : List α) (nm : α → String)
    (mk : α → CompletionItem) (q : String → Bool)
    (h : ∀ a, (mk a).label = nm a) :
    ((l.filter (fun a => q (nm a))).map mk).map (·.label)
      = (l.map nm).filter q := by
  induction l with
  | nil => rfl
  | cons a rest ih =>
    by_cases hq : q (nm a) = true
    · simp [List.filter_cons, hq, h a, ih]
    · simp [List.filter_cons, hq, ih]

/-- C3 counterexample: with standalone modules `a.utils` (file `f1`,
holding one public function `foo`) and `a.utilsX`, the prefix `a.utils`
satisfies every hypothesis of the claim — it exactly matches a standalone
location and no other location is a strict DOT-extension of it — yet the
code offers no candidates at all (the string-extension `a.utilsX` defeats
the leaf check), instead of `foo`. -/
theorem c3_counterexample :
    findByModulePath indexC3 "a.utils" = some locAUtils
    ∧ locAUtils.script_key = "__file__"
    ∧ (∀ loc ∈ indexC3, pyStartsWith loc.module_path "a.utils." = false)
    ∧ specLeafCandidateNames (getSymsC3 locAUtils.file_path locAUtils.module_path) ""
      = ["foo"]
    ∧ getProjectCompletions indexC3 getSymsC3 "a.utils." = [] := by
  refine ⟨by decide, by decide, by decide, by decide, by decide⟩

/-- C3 (amended): leaf detection requires that no OTHER location's
`module_path` is a strict plain string-extension of the prefix (not merely
no dot-extension).  Under that condition, if the prefix exactly matches a
location whose `script_key` is the file sentinel, the candidates are
exactly the module's top-level functions, classes and variables, excluding
names beginning with `_`, filtered by the partial case-insensitively
(provided the module's symbols carry no parse error). -/
theorem c3_leaf_completions_amended (index : List ScriptLocation)
    (g : String → String → ModuleSymbols) (context : String)
    (leaf : ScriptLocation)
    (hfind : findByModulePath index (splitContext context).1 = some leaf)
    (hkey : leaf.script_key = "__file__")
    (hnoext : ∀ loc ∈ index,
      pyStartsWith loc.module_path (splitContext context).1 = true →
      loc.module_path = (splitContext context).1) :
    getProjectCompletions index g context
      = leafSymbolCompletions leaf (splitContext context).2 g
    ∧ ((g leaf.file_path leaf.module_path).parse_error = none →
      (getProjectCompletions index g context).map (·.label)
        = specLeafCandidateNames (g leaf.file_path leaf.module_path)
            (splitContext context).2) := by
  have hchildren : ((searchModulePaths index (splitContext context).1).filter
      (fun s => s.module_path ≠ (splitContext context).1)) = [] := by
    rw [List.filter_eq_nil_iff]
    intro s hs
    rcases List.mem_filter.mp hs with ⟨hmem, hsw⟩
    have := hnoext s hmem hsw
    simp [this]
  have hcond : (leaf.script_key == "__file__" &&
      ((searchModulePaths index (splitContext context).1).filter
        (fun s => s.module_path ≠ (splitContext context).1)).isEmpty) = true := by
    rw [hchildren, hkey]
    rfl
  have h1 : getProjectCompletions index g context
      = leafSymbolCompletions leaf (splitContext context).2 g := by
    unfold getProjectCompletions
    dsimp only
    rw [hfind]
    dsimp only
    rw [hcond]
    rfl
  refine ⟨h1, ?_⟩
  intro hpe
  rw [h1]
  unfold leafSymbolCompletions
  dsimp only
  rw [hpe]
  rw [if_neg (by simp)]
  rw [List.map_append, List.map_append]
  unfold specLeafCandidateNames
  refine congrArg₂ HAppend.hAppend (congrArg₂ HAppend.hAppend ?_ ?_) ?_
  · exact map_label_filter (g leaf.file_path leaf.module_path).functions
      (fun f => f.name)
      (fun f => { label := f.name, kind := CompletionKind.functionK,
                  detail := f.signature })
      (keepPublic (splitContext context).2) (fun a => rfl)
  · exact map_label_filter (g leaf.file_path leaf.module_path).classes
      (fun c => c.name)
      (fun c => { label := c.name, kind := CompletionKind.classK,
                  detail := "class " ++ c.name })
      (keepPublic (splitContext context).2) (fun a => rfl)
  · exact map_label_filter (g leaf.file_path leaf.module_path).vars
      (fun v => v.name)
      (fun v => { label := v.name, kind := CompletionKind.variableK,
                  detail := varDetail v })
      (keepPublic (splitContext context).2) (fun a => rfl)

/-- C3 witness: the amended statement on a one-location index, offering
exactly `foo`. -/
theorem c3_leaf_completions_witness :
    findByModulePath [locAUtils] (splitContext "a.utils.").1 = some locAUtils
    ∧ getProjectCompletions [locAUtils] getSymsC3 "a.utils."
      = leafSymbolCompletions locAUtils (splitContext "a.utils.").2 getSymsC3
    ∧ (getProjectCompletions [locAUtils] getSymsC3 "a.utils.").map (·.label)
      = ["foo"] := by
  have h := c3_leaf_completions_amended [locAUtils] getSymsC3 "a.utils."
    locAUtils (by decide) (by decide)
    (by intro loc hloc hsw
        rcases List.mem_singleton.mp hloc with rfl
        decide)
  refine ⟨by decide, h.1, ?_⟩
  rw [h.2 (by decide)]
  decide

/-- Membership through the insertion-sort step. -/
theorem insertSortedPair_mem (p : String × String) (l : List (String × String))
    (x : String × String) :
    x ∈ insertSortedPair p l ↔ x = p ∨ x ∈ l := by
  induction l with
  | nil => simp [insertSortedPair]
  | cons q rest ih =>
    unfold insertSortedPair
    split
    · simp [List.mem_cons]
    · rw [List.mem_cons, ih, List.mem_cons]
      tauto

/-- Sorting the seen segments is a permutation for membership purposes. -/
theorem sortPairs_mem (l : List (String × String)) (x : String × String) :
    x ∈ sortPairs l ↔ x ∈ l := by
  have key : ∀ (ll : List (String × String)) (acc : List (String × String)),
      x ∈ ll.foldl (fun acc p => insertSortedPair p acc) acc ↔
        x ∈ acc ∨ x ∈ ll := by
    intro ll
    induction ll with
    | nil => intro acc; simp
    | cons p rest ih =>
      intro acc
      rw [List.foldl_cons, ih (insertSortedPair p acc), insertSortedPair_mem,
        List.mem_cons]
      tauto
  rw [sortPairs, key l []]
  simp

/-- Both package-branch item shapes are labelled with the segment. -/
theorem packageItem_label (index : List ScriptLocation) (pre : String)
    (sk : String × String) :
    (packageItem index pre sk).label = sk.1 := by
  unfold packageItem
  dsimp only
  split
  · split
    · rfl
    · rfl
  · rfl

/-- One step of the seen-fold: the segment set grows by exactly the
location's next segment, when the location reaches past the prefix depth
and passes the partial filter. -/
theorem packageSeenStep_fst_mem (pre frag : String)
    (acc : List (String × String)) (loc : ScriptLocation) (s : String) :
    s ∈ (packageSeenStep pre frag acc loc).map Prod.fst ↔
      s ∈ acc.map Prod.fst ∨
        ((pySplit loc.module_path '.').length > (pySplit pre '.').length
         ∧ (pySplit loc.module_path '.').getD (pySplit pre '.').length "" = s
         ∧ (frag = "" ∨ pyStartsWith (pyLower s) (pyLower frag) = true)) := by
  unfold packageSeenStep
  dsimp only
  by_cases hlen : (pySplit loc.module_path '.').length ≤ (pySplit pre '.').length
  · rw [if_pos hlen]
    constructor
    · exact Or.inl
    · rintro (h | ⟨hgt, _, _⟩)
      · exact h
      · omega
  · rw [if_neg hlen]
    by_cases hfr : (decide (frag ≠ "") && !pyStartsWith
        (pyLower ((pySplit loc.module_path '.').getD (pySplit pre '.').length ""))
        (pyLower frag)) = true
    · rw [if_pos hfr]
      constructor
      · exact Or.inl
      · rintro (h | ⟨hgt, hs, hok⟩)
        · exact h
        · exfalso
          rw [Bool.and_eq_true] at hfr
          rcases hfr with ⟨hf1, hf2⟩
          rw [hs] at hf2
          rcases hok with hok | hok
          · rw [hok] at hf1
            simp at hf1
          · rw [hok] at hf2
            simp at hf2
    · rw [if_neg hfr]
      have hok2 : frag = "" ∨ pyStartsWith
          (pyLower ((pySplit loc.module_path '.').getD (pySplit pre '.').length ""))
          (pyLower frag) = true := by
        by_cases hfe : frag = ""
        · exact Or.inl hfe
        · right
          rw [Bool.and_eq_true] at hfr
          push_neg at hfr
          have := hfr (by simpa using hfe)
          simpa using this
      by_cases hany : (acc.any (fun kv =>
          kv.1 == (pySplit loc.module_path '.').getD (pySplit pre '.').length "")) = true
      · rw [if_pos hany]
        have hseg_in : (pySplit loc.module_path '.').getD (pySplit pre '.').length ""
            ∈ acc.map Prod.fst := by
          rcases List.any_eq_true.mp hany with ⟨kv, hkv, hb⟩
          rw [beq_iff_eq] at hb
          rw [← hb]
          exact List.mem_map_of_mem Prod.fst hkv
        constructor
        · exact Or.inl
        · rintro (h | ⟨hgt, hs, _⟩)
          · exact h
          · rw [← hs]
            exact hseg_in
      · rw [if_neg hany]
        rw [List.map_append]
        rw [List.mem_append]
        constructor
        · rintro (h | h)
          · exact Or.inl h
          · rcases List.mem_singleton.mp h with rfl
            exact Or.inr ⟨by omega, rfl, hok2⟩
        · rintro (h | ⟨hgt, hs, _⟩)
          · exact Or.inl h
          · right
            rw [← hs]
            exact List.mem_singleton.mpr rfl

/-- The seen-fold over a list of locations collects exactly the qualifying
next segments. -/
theorem packageSeen_foldl_mem (pre frag : String) (locs : List ScriptLocation) :
    ∀ (acc : List (String × String)) (s : String),
      s ∈ ((locs.foldl (packageSeenStep pre frag) acc).map Prod.fst) ↔
        s ∈ acc.map Prod.fst ∨ ∃ loc ∈ locs,
          ((pySplit loc.module_path '.').length > (pySplit pre '.').length
           ∧ (pySplit loc.module_path '.').getD (pySplit pre '.').length "" = s
           ∧ (frag = "" ∨ pyStartsWith (pyLower s) (pyLower frag) = true)) := by
  induction locs with
  | nil => intro acc s; simp
  | cons loc rest ih =>
    intro acc s
    rw [List.foldl_cons, ih (packageSeenStep pre frag acc loc) s,
      packageSeenStep_fst_mem]
    constructor
    · rintro ((h | hc) | ⟨l, hl, hcl⟩)
      · exact Or.inl h
      · exact Or.inr ⟨loc, List.mem_cons_self loc rest, hc⟩
      · exact Or.inr ⟨l, List.mem_cons_of_mem loc hl, hcl⟩
    · rintro (h | ⟨l, hl, hcl⟩)
      · exact Or.inl (Or.inl h)
      · rcases List.mem_cons.mp hl with rfl | hl2
        · exact Or.inl (Or.inr hcl)
        · exact Or.inr ⟨l, hl2, hcl⟩

/-- C4 counterexample: with the single location `a.utilsX.b` and the typed
context `a.utils.`, no location's `module_path` starts with
`"a.utils" + "."` — the claim therefore promises no candidates — yet the
code matches `a.utilsX.b` by plain string prefix, indexes past the
prefix depth and offers the segment `b`. -/
theorem c4_counterexample :
    (∀ loc ∈ indexC4, pyStartsWith loc.module_path "a.utils." = false)
    ∧ findByModulePath indexC4 "a.utils" = none
    ∧ (getProjectCompletions indexC4 getSymsEmpty "a.utils.").map (·.label)
      = ["b"] := by
  refine ⟨by decide, by decide, by decide⟩

/-- C4 (amended): in the package branch (no exact match for the prefix, and
none for its parent either, so neither the leaf nor the class-member branch
fires), the candidate labels are exactly the deduplicated segments at index
`depth(prefix)` taken from every location whose `module_path` starts with
the prefix AS A PLAIN STRING (not `prefix + "."`) and has more than
`depth(prefix)` dot-segments, filtered by the partial case-insensitively;
the claim's two scenarios hold unchanged. -/
theorem c4_package_completions_amended (index : List ScriptLocation)
    (g : String → String → ModuleSymbols) (context : String)
    (hfind : findByModulePath index (splitContext context).1 = none)
    (hclass : ∀ a b, rsplit1 (splitContext context).1 = some (a, b) →
      findByModulePath index a = none) :
    (∀ s, s ∈ (getProjectCompletions index g context).map (·.label) ↔
      ∃ loc ∈ index,
        pyStartsWith loc.module_path (splitContext context).1 = true
        ∧ (pySplit loc.module_path '.').length
            > (pySplit (splitContext context).1 '.').length
        ∧ (pySplit loc.module_path '.').getD
            (pySplit (splitContext context).1 '.').length "" = s
        ∧ ((splitContext context).2 = ""
           ∨ pyStartsWith (pyLower s) (pyLower (splitContext context).2) = true))
    ∧ (getProjectCompletions indexPL getSymsEmpty "project.").map (·.label)
      = ["library"]
    ∧ (getProjectCompletions indexPL getSymsEmpty "project.library.").map (·.label)
      = ["config", "utils"] := by
  have hred : getProjectCompletions index g context
      = packageCompletions index (splitContext context).1 (splitContext context).2 := by
    unfold getProjectCompletions
    dsimp only
    rw [hfind]
    dsimp only
    cases hrs : rsplit1 (splitContext context).1 with
    | none => rfl
    | some ab =>
      rcases ab with ⟨a, b⟩
      dsimp only
      rw [hclass a b hrs]
  refine ⟨?_, by decide, by decide⟩
  intro s
  rw [hred]
  unfold packageCompletions
  dsimp only
  cases hm : (searchModulePaths index (splitContext context).1).isEmpty with
  | true =>
    have hnil : searchModulePaths index (splitContext context).1 = [] :=
      List.isEmpty_iff.mp hm
    constructor
    · intro h
      cases h
    · rintro ⟨loc, hloc, hsw, _⟩
      have : loc ∈ searchModulePaths index (splitContext context).1 :=
        List.mem_filter.mpr ⟨hloc, hsw⟩
      rw [hnil] at this
      cases this
  | false =>
    simp only [Bool.false_eq_true, if_false]
    have hlab : s ∈ ((sortPairs ((searchModulePaths index
          (splitContext context).1).foldl
          (packageSeenStep (splitContext context).1 (splitContext context).2)
          [])).map (packageItem index (splitContext context).1)).map (·.label) ↔
        s ∈ (sortPairs ((searchModulePaths index
          (splitContext context).1).foldl
          (packageSeenStep (splitContext context).1 (splitContext context).2)
          [])).map Prod.fst := by
      simp only [List.mem_map]
      constructor
      · rintro ⟨item, ⟨sk, hsk, rfl⟩, hl⟩
        refine ⟨sk, hsk, ?_⟩
        rw [← packageItem_label index (splitContext context).1 sk]
        exact hl
      · rintro ⟨sk, hsk, hfst⟩
        refine ⟨packageItem index (splitContext context).1 sk, ⟨sk, hsk, rfl⟩, ?_⟩
        rw [packageItem_label]
        exact hfst
    rw [hlab]
    have hsort : s ∈ (sortPairs ((searchModulePaths index
          (splitContext context).1).foldl
          (packageSeenStep (splitContext context).1 (splitContext context).2)
          [])).map Prod.fst ↔
        s ∈ (((searchModulePaths index (splitContext context).1).foldl
          (packageSeenStep (splitContext context).1 (splitContext context).2)
          [])).map Prod.fst := by
      simp only [List.mem_map]
      constructor
      · rintro ⟨sk, hsk, hfst⟩
        exact ⟨sk, (sortPairs_mem _ sk).mp hsk, hfst⟩
      · rintro ⟨sk, hsk, hfst⟩
        exact ⟨sk, (sortPairs_mem _ sk).mpr hsk, hfst⟩
    rw [hsort]
    rw [packageSeen_foldl_mem]
    constructor
    · rintro (h | ⟨loc, hloc, hcond⟩)
      · cases h
      · rcases List.mem_filter.mp hloc with ⟨hmem, hsw⟩
        exact ⟨loc, hmem, hsw, hcond⟩
    · rintro ⟨loc, hloc, hsw, hcond⟩
      exact Or.inr ⟨loc, List.mem_filter.mpr ⟨hloc, hsw⟩, hcond⟩

/-- C4 witness: the amended characterization instantiated at the spec's
`project.library.` scenario and the segment `utils`. -/
theorem c4_package_completions_witness :
    findByModulePath indexPL (splitContext "project.library.").1 = none
    ∧ ("utils" ∈ (getProjectCompletions indexPL getSymsEmpty
          "project.library.").map (·.label) ↔
      ∃ loc ∈ indexPL,
        pyStartsWith loc.module_path (splitContext "project.library.").1 = true
        ∧ (pySplit loc.module_path '.').length
            > (pySplit (splitContext "project.library.").1 '.').length
        ∧ (pySplit loc.module_path '.').getD
            (pySplit (splitContext "project.library.").1 '.').length "" = "utils"
        ∧ ((splitContext "project.library.").2 = ""
           ∨ pyStartsWith (pyLower "utils")
               (pyLower (splitContext "project.library.").2) = true)) := by
  have hclass : ∀ a b, rsplit1 (splitContext "project.library.").1 = some (a, b) →
      findByModulePath indexPL a = none := by
    intro a b hab
    have h3 : rsplit1 (splitContext "project.library.").1
        = some ("project", "library") := by decide
    have h4 : (("project" : String), ("library" : String)) = (a, b) :=
      Option.some.inj (h3.symm.trans hab)
    cases h4
    decide
  exact ⟨by decide,
    (c4_package_completions_amended indexPL getSymsEmpty "project.library."
      (by decide) hclass).1 "utils"⟩

end IgnitionLsp
